import Mathlib

/-!
# flagops-data-store OpenFeature provider: verification development

A shallow embedding of `pkg/provider.go`.  The Go functions of the package are
translated one by one, keeping their names.  What the package obtains from its
environment is modelled explicitly:

* Go maps are association lists read through `GoMap.get` and written through
  `GoMap.set`;
* the remote data store behind `http.Client.Do` is a state-passing function
  (`HttpClient.roundTrip`), and every request handed to `Do` is logged in the
  `World`;
* the wrapped `openfeature.FeatureProvider` is a record of five evaluation
  functions, and every invocation of it is logged in the `World`;
* a failed type assertion is the outcome `Outcome.panicked`;
* the library functions the package calls (`url.Parse`, `URL.JoinPath`,
  `URL.String`, `path.Join`, the decoding of `encoding/json` into a map of
  strings) are modelled after the Go library, each in its own section.
-/

namespace FlagopsDataStore

/-! ## Go maps -/

/-- A Go `map[string]V`: an association list in which the first entry of a key
is the one that counts.  A nil map and an empty map are both `[]`. -/
abbrev GoMap (V : Type) := List (String × V)

namespace GoMap

/-- The comma-ok read `v, ok := m[k]`. -/
def get {V : Type} : GoMap V → String → Option V
  | [], _ => none
  | (k', v) :: m, k => if k' = k then some v else get m k

/-- The assignment `m[k] = v`. -/
def set {V : Type} : GoMap V → String → V → GoMap V
  | [], k, v => [(k, v)]
  | (k', v') :: m, k, v => if k' = k then (k, v) :: m else (k', v') :: set m k v

end GoMap

/-! ## Values and errors -/

/-- A Go `error` value that is not nil; `msg` is what `Error()` returns. -/
structure Error where
  msg : String
deriving DecidableEq, Repr

/-- The function `errors.New`. -/
def errors_New (text : String) : Error := ⟨text⟩

/-- A Go `float64`, carried as its IEEE-754 bit pattern; the package only
passes such values along. -/
structure Float64 where
  bits : Nat
deriving DecidableEq, Repr

/-- A JSON value. -/
inductive Json where
  | null : Json
  | bool (b : Bool) : Json
  | num (literal : String) : Json
  | str (s : String) : Json
  | arr (items : List Json) : Json
  | obj (members : List (String × Json)) : Json

/-- A Go `interface{}` value as found in a flattened evaluation context. -/
inductive Any where
  | nil : Any
  | str (s : String) : Any
  | bool (b : Bool) : Any
  | int (n : Int) : Any
  | float (f : Float64) : Any
  | structured (j : Json) : Any

/-- The comma-less type assertion `v.(string)`: `none` stands for the run-time
panic raised when the dynamic type of `v` is not `string`. -/
def Any.assertString : Any → Option String
  | Any.str s => some s
  | _ => none

/-- The type `openfeature.FlattenedContext`, a `map[string]interface{}`. -/
abbrev FlattenedContext := GoMap Any

/-- The constant `openfeature.TargetingKey`. -/
def TargetingKey : String := "targetingKey"

/-- A `context.Context`; the package only passes it along. -/
structure Context where
  id : Nat
deriving DecidableEq, Repr

/-! ## Package `path` and `net/url`

Strings are processed as character lists.  A URL keeps its components as they
are written in a URL string: percent-escapes are checked where Go checks them
but they are not decoded, and `String` writes a component back as it is kept.
Go decodes a component on parsing and encodes it again on writing, so the
functions below agree with Go on components written the way Go writes them;
for a path these are the paths whose characters `escape` leaves alone. -/

/-- The function `strings.Split(s, "/")` on characters. -/
def splitSlash : List Char → List (List Char)
  | [] => [[]]
  | c :: cs =>
    if c = '/' then [] :: splitSlash cs
    else
      match splitSlash cs with
      | [] => [[c]]
      | seg :: rest => (c :: seg) :: rest

/-- The function `strings.Join(segs, "/")` on characters. -/
def joinSlash : List (List Char) → List Char
  | [] => []
  | [seg] => seg
  | seg :: rest => seg ++ '/' :: joinSlash rest

/-- One element of a path met by `path.Clean`: empty elements and `.` are
dropped, `..` removes the element before it (at the root it is dropped, and in
a relative path with nothing left to remove it is kept), any other element is
appended. -/
def cleanStep (rooted : Bool) (out : List (List Char)) (seg : List Char) :
    List (List Char) :=
  if seg = [] ∨ seg = ['.'] then out
  else if seg = ['.', '.'] then
    match out.getLast? with
    | none => if rooted then [] else [seg]
    | some top => if top = ['.', '.'] then out ++ [seg] else out.dropLast
  else out ++ [seg]

/-- The function `path.Clean` on characters. -/
def cleanChars (p : List Char) : List Char :=
  if p = [] then ['.']
  else
    let rooted : Bool := p.head? = some '/'
    let out := (splitSlash p).foldl (cleanStep rooted) []
    if rooted then '/' :: joinSlash out
    else if out = [] then ['.']
    else joinSlash out

/-- The function `path.Clean`. -/
def path_Clean (p : String) : String := String.mk (cleanChars p.data)

/-- The function `path.Join`: the non-empty elements joined by `/`, cleaned;
the empty string when no element is non-empty. -/
def path_Join (elem : List String) : String :=
  let parts := (elem.map String.data).filter (fun e => e ≠ [])
  if parts = [] then "" else path_Clean (String.mk (joinSlash parts))

/-- A `url.URL`.  The components are kept as they are written in a URL string:
`Path` is what `EscapedPath` returns, `User` is the user information before the
`@`, `Host` is the host with its port, `Fragment` is what `EscapedFragment`
returns. -/
structure URL where
  Scheme : String := ""
  Opaque : String := ""
  User : Option String := none
  Host : String := ""
  Path : String := ""
  OmitHost : Bool := false
  ForceQuery : Bool := false
  RawQuery : String := ""
  Fragment : String := ""
deriving DecidableEq, Repr

/-- What `String` writes before the path of a URL with a host: the scheme with
its colon, `//`, the user information with its `@`, and the host. -/
def URL.origin (u : URL) : String :=
  (if u.Scheme ≠ "" then u.Scheme ++ ":" else "") ++ "//" ++
    (match u.User with
      | some userinfo => userinfo ++ "@"
      | none => "") ++ u.Host

/-- What `String` writes after the path: the query with its `?` and the
fragment with its `#`. -/
def URL.suffix (u : URL) : String :=
  (if u.ForceQuery = true ∨ u.RawQuery ≠ "" then "?" ++ u.RawQuery else "") ++
    (if u.Fragment ≠ "" then "#" ++ u.Fragment else "")

/-- The method `(*URL).EscapedPath`. -/
def URL.EscapedPath (u : URL) : String := u.Path

/-! ### Escapes -/

/-- The lower-case hexadecimal digit of a number below 16. -/
def hexDigit (n : Nat) : Char :=
  if n < 10 then Char.ofNat (48 + n) else Char.ofNat (87 + n)

/-- The function `strconv.Quote`, which `%q` applies: a double-quoted Go string
literal.  Runes outside ASCII are taken to be printable. -/
def strconv_Quote (s : String) : String :=
  let quoteChar : Char → List Char := fun c =>
    if c = '"' then ['\\', '"']
    else if c = '\\' then ['\\', '\\']
    else if c.toNat = 7 then ['\\', 'a']
    else if c.toNat = 8 then ['\\', 'b']
    else if c.toNat = 12 then ['\\', 'f']
    else if c = '\n' then ['\\', 'n']
    else if c = '\r' then ['\\', 'r']
    else if c = '\t' then ['\\', 't']
    else if c.toNat = 11 then ['\\', 'v']
    else if c.toNat < 32 ∨ c.toNat = 127 then
      ['\\', 'x', hexDigit (c.toNat / 16), hexDigit (c.toNat % 16)]
    else [c]
  String.mk ('"' :: (s.data.map quoteChar).flatten ++ ['"'])

/-- The type `url.EscapeError`. -/
def EscapeError (s : List Char) : Error :=
  ⟨"invalid URL escape " ++ strconv_Quote (String.mk s)⟩

/-- The type `url.InvalidHostError`. -/
def InvalidHostError (s : List Char) : Error :=
  ⟨"invalid character " ++ strconv_Quote (String.mk s) ++ " in host name"⟩

/-- The modes of escaping that parsing uses. -/
inductive Encoding where
  | encodePath
  | encodeHost
  | encodeZone
  | encodeUserPassword
  | encodeFragment
deriving DecidableEq, Repr

/-- The function `shouldEscape` for the host mode. -/
def shouldEscapeHost (c : Char) : Bool :=
  !(c.isAlphanum || c ∈ ['!', '$', '&', '\'', '(', ')', '*', '+', ',', ';', '=', ':', '[', ']',
      '<', '>', '"', '-', '_', '.', '~'])

/-- The function `ishex`. -/
def ishex (c : Char) : Bool :=
  c.isDigit || ('a'.toNat ≤ c.toNat && c.toNat ≤ 'f'.toNat) ||
    ('A'.toNat ≤ c.toNat && c.toNat ≤ 'F'.toNat)

/-- The function `unhex`. -/
def unhex (c : Char) : Nat :=
  if c.isDigit then c.toNat - 48
  else if 'a'.toNat ≤ c.toNat ∧ c.toNat ≤ 'f'.toNat then c.toNat - 87
  else if 'A'.toNat ≤ c.toNat ∧ c.toNat ≤ 'F'.toNat then c.toNat - 55
  else 0

/-- The checks of `unescape(s, mode)`: the error it returns, if any.  A `%`
must be followed by two hexadecimal digits; in a host only bytes outside ASCII
and `%25` may be escaped, and ASCII characters that a host cannot hold are
rejected; in a zone an escape must stand for a space or a byte a host can
hold. -/
def unescapeError (mode : Encoding) : List Char → Option Error
  | [] => none
  | '%' :: h1 :: h2 :: rest =>
    if ¬ (ishex h1 ∧ ishex h2) then some (EscapeError ['%', h1, h2])
    else if mode = Encoding.encodeHost ∧ unhex h1 < 8 ∧ [h1, h2] ≠ ['2', '5'] then
      some (EscapeError ['%', h1, h2])
    else if mode = Encoding.encodeZone ∧ [h1, h2] ≠ ['2', '5'] ∧
        unhex h1 * 16 + unhex h2 ≠ 32 ∧
        (128 ≤ unhex h1 * 16 + unhex h2 ∨
          shouldEscapeHost (Char.ofNat (unhex h1 * 16 + unhex h2))) then
      some (EscapeError ['%', h1, h2])
    else unescapeError mode rest
  | '%' :: rest => some (EscapeError ('%' :: rest))
  | c :: rest =>
    if (mode = Encoding.encodeHost ∨ mode = Encoding.encodeZone) ∧ c.toNat < 128 ∧
        shouldEscapeHost c then
      some (InvalidHostError [c])
    else unescapeError mode rest

/-- The path `JoinPath` computes: the escaped path and the elements are joined
and cleaned by `path.Join`, as a rooted path; a relative base path stays
relative; a trailing slash of the last element is preserved. -/
def URL.joinedPath (u : URL) (elem : List String) : String :=
  let elem0 := u.EscapedPath
  let relative : Bool := elem0.data.head? ≠ some '/'
  let elems := (if relative then "/" ++ elem0 else elem0) :: elem
  let p := if relative then String.mk ((path_Join elems).data.drop 1) else path_Join elems
  let last := elems.getLast (List.cons_ne_nil _ _)
  if last.data.getLast? = some '/' ∧ p.data.getLast? ≠ some '/' then p ++ "/" else p

/-- The method `(*URL).JoinPath`: a copy of the URL whose path is set to the
joined path.  When the joined path holds an invalid percent-escape `setPath`
fails, its error is dropped and the copy keeps the path of the URL. -/
def URL.JoinPath (u : URL) (elem : List String) : URL :=
  match unescapeError Encoding.encodePath (u.joinedPath elem).data with
  | some _ => u
  | none => { u with Path := u.joinedPath elem }

/-- The method `(*URL).String`. -/
def URL.String (u : URL) : String :=
  let scheme := if u.Scheme ≠ "" then u.Scheme ++ ":" else ""
  let body :=
    if u.Opaque ≠ "" then u.Opaque
    else
      let authority :=
        if u.Scheme ≠ "" ∨ u.Host ≠ "" ∨ u.User ≠ none then
          if u.OmitHost = true ∧ u.Host = "" ∧ u.User = none then ""
          else
            (if u.Host ≠ "" ∨ u.Path ≠ "" ∨ u.User ≠ none then "//" else "") ++
              (match u.User with
                | some userinfo => userinfo ++ "@"
                | none => "") ++ u.Host
        else ""
      let path := u.EscapedPath
      let slash := if path ≠ "" ∧ path.data.head? ≠ some '/' ∧ u.Host ≠ "" then "/" else ""
      let dotSlash :=
        if scheme ++ authority ++ slash = "" ∧ ':' ∈ (splitSlash path.data).headD [] then "./"
        else ""
      authority ++ slash ++ dotSlash ++ path
  let query := if u.ForceQuery = true ∨ u.RawQuery ≠ "" then "?" ++ u.RawQuery else ""
  let fragment := if u.Fragment ≠ "" then "#" ++ u.Fragment else ""
  scheme ++ body ++ query ++ fragment

/-! ### Parsing

The function `url.Parse`, after the source of `net/url` in Go 1.22. -/

/-- The method `(*url.Error).Error` for the error of an operation on a URL. -/
def url_Error (op url : String) (err : Error) : Error :=
  ⟨op ++ " " ++ strconv_Quote url ++ ": " ++ err.msg⟩

/-- The function `stringContainsCTLByte`: an ASCII control character occurs. -/
def stringContainsCTLByte (s : List Char) : Bool :=
  s.any fun c => c.toNat < 32 || c.toNat = 127

/-- The function `strings.Cut(s, sep)` for a separator of one character: the
text before the first separator, the text after it, and whether there is
one. -/
def cutChar (sep : Char) : List Char → List Char × List Char × Bool
  | [] => ([], [], false)
  | c :: cs =>
    if c = sep then ([], cs, true)
    else ((c :: (cutChar sep cs).1), (cutChar sep cs).2.1, (cutChar sep cs).2.2)

/-- The split of `s` at the last occurrence of `sep`, as `strings.LastIndex`
finds it: the text before it and the text after it. -/
def cutLastChar (sep : Char) (s : List Char) : Option (List Char × List Char) :=
  match cutChar sep s.reverse with
  | (afterRev, beforeRev, true) => some (beforeRev.reverse, afterRev.reverse)
  | _ => none

/-- The loop of `getScheme` from position `i` on: `seen` is `rawURL[:i]`. -/
def getSchemeFrom (rawURL : List Char) : List Char → List Char →
    Except Error (List Char × List Char)
  | _, [] => Except.ok ([], rawURL)
  | seen, c :: cs =>
    if c.isAlpha then getSchemeFrom rawURL (seen ++ [c]) cs
    else if c.isDigit ∨ c = '+' ∨ c = '-' ∨ c = '.' then
      if seen = [] then Except.ok ([], rawURL) else getSchemeFrom rawURL (seen ++ [c]) cs
    else if c = ':' then
      if seen = [] then Except.error ⟨"missing protocol scheme"⟩ else Except.ok (seen, cs)
    else Except.ok ([], rawURL)

/-- The function `getScheme`: a leading scheme and the text after its colon,
or no scheme and the whole text. -/
def getScheme (rawURL : List Char) : Except Error (List Char × List Char) :=
  getSchemeFrom rawURL [] rawURL

/-- The function `validOptionalPort`: empty, or a colon followed by digits. -/
def validOptionalPort (port : List Char) : Bool :=
  match port with
  | [] => true
  | c :: digits => c = ':' && digits.all Char.isDigit

/-- The function `validUserinfo`. -/
def validUserinfo (s : List Char) : Bool :=
  s.all fun c =>
    c.isAlphanum || c ∈ ['-', '.', '_', ':', '~', '!', '$', '&', '\'', '(', ')', '*', '+', ',',
      ';', '=', '%', '@']

/-- The position of the first `%25` in `s`: the text before it and the text
from it on. -/
def cutZone : List Char → Option (List Char × List Char)
  | [] => none
  | c :: cs =>
    if ['%', '2', '5'].isPrefixOf (c :: cs) then some ([], c :: cs)
    else
      match cutZone cs with
      | some (before, zone) => some (c :: before, zone)
      | none => none

/-- The function `parseHost`: the error it returns, if any; the host is kept
as written. -/
def parseHostError (host : List Char) : Option Error :=
  if host.head? = some '[' then
    match cutLastChar ']' host with
    | none => some ⟨"missing ']' in host"⟩
    | some (literal, colonPort) =>
      if ¬ validOptionalPort colonPort then
        some ⟨"invalid port " ++ strconv_Quote (String.mk colonPort) ++ " after host"⟩
      else
        match cutZone literal with
        | some (host1, host2) =>
          (unescapeError Encoding.encodeHost host1).orElse fun _ =>
            (unescapeError Encoding.encodeZone host2).orElse fun _ =>
              unescapeError Encoding.encodeHost (']' :: colonPort)
        | none => unescapeError Encoding.encodeHost host
  else
    match cutLastChar ':' host with
    | some (_, port) =>
      if ¬ validOptionalPort (':' :: port) then
        some ⟨"invalid port " ++ strconv_Quote (String.mk (':' :: port)) ++ " after host"⟩
      else unescapeError Encoding.encodeHost host
    | none => unescapeError Encoding.encodeHost host

/-- The function `parseAuthority`: the user information and the host, both as
written, or the error. -/
def parseAuthority (authority : List Char) : Except Error (Option String × String) :=
  match cutLastChar '@' authority with
  | none =>
    match parseHostError authority with
    | some err => Except.error err
    | none => Except.ok (none, String.mk authority)
  | some (userinfo, host) =>
    match parseHostError host with
    | some err => Except.error err
    | none =>
      if ¬ validUserinfo userinfo then Except.error ⟨"net/url: invalid userinfo"⟩
      else
        match
          (unescapeError Encoding.encodeUserPassword (cutChar ':' userinfo).1).orElse fun _ =>
            unescapeError Encoding.encodeUserPassword (cutChar ':' userinfo).2.1 with
        | some err => Except.error err
        | none => Except.ok (some (String.mk userinfo), String.mk host)

/-- The function `parse(rawURL, false)`: the URL without its fragment. -/
def url_parse (rawURL : List Char) : Except Error URL :=
  if stringContainsCTLByte rawURL then
    Except.error ⟨"net/url: invalid control character in URL"⟩
  else if rawURL = ['*'] then Except.ok { Path := "*" }
  else
    match getScheme rawURL with
    | Except.error err => Except.error err
    | Except.ok (scheme, rest) =>
      let scheme := String.mk (scheme.map Char.toLower)
      let forceQuery : Bool := rest.getLast? = some '?' ∧ rest.count '?' = 1
      let rawQuery := if forceQuery then [] else (cutChar '?' rest).2.1
      let rest := if forceQuery then rest.dropLast else (cutChar '?' rest).1
      if rest.head? ≠ some '/' ∧ scheme ≠ "" then
        Except.ok { Scheme := scheme, Opaque := String.mk rest, ForceQuery := forceQuery,
                    RawQuery := String.mk rawQuery }
      else if rest.head? ≠ some '/' ∧ ':' ∈ (cutChar '/' rest).1 then
        Except.error ⟨"first path segment in URL cannot contain colon"⟩
      else if (scheme ≠ "" ∨ ¬ ['/', '/', '/'].isPrefixOf rest) ∧ ['/', '/'].isPrefixOf rest then
        let authority := (cutChar '/' (rest.drop 2)).1
        let rest := if (cutChar '/' (rest.drop 2)).2.2 then '/' :: (cutChar '/' (rest.drop 2)).2.1
          else []
        match parseAuthority authority with
        | Except.error err => Except.error err
        | Except.ok (user, host) =>
          match unescapeError Encoding.encodePath rest with
          | some err => Except.error err
          | none =>
            Except.ok { Scheme := scheme, User := user, Host := host, Path := String.mk rest,
                        ForceQuery := forceQuery, RawQuery := String.mk rawQuery }
      else
        match unescapeError Encoding.encodePath rest with
        | some err => Except.error err
        | none =>
          Except.ok { Scheme := scheme, Path := String.mk rest,
                      OmitHost := scheme ≠ "" ∧ rest.head? = some '/',
                      ForceQuery := forceQuery, RawQuery := String.mk rawQuery }

/-- The function `url.Parse`: the fragment is cut off at the first `#`, the
rest is parsed, and the fragment is checked and set. -/
def url_Parse (rawURL : String) : Except Error URL :=
  let u := (cutChar '#' rawURL.data).1
  let frag := (cutChar '#' rawURL.data).2.1
  match url_parse u with
  | Except.error err => Except.error (url_Error "parse" (String.mk u) err)
  | Except.ok url =>
    if frag = [] then Except.ok url
    else
      match unescapeError Encoding.encodeFragment frag with
      | some err => Except.error (url_Error "parse" rawURL err)
      | none => Except.ok { url with Fragment := String.mk frag }

/-! ## Package `encoding/json` -/

/-- An HTTP response body as a `json.Decoder` reads it: either the stream does
not start with a well-formed JSON value (`err` is the syntax or read error the
decoder reports, `io.EOF` for an empty body), or `value` is the first JSON
value of the stream. -/
inductive Body where
  | invalid (err : Error) : Body
  | json (value : Json) : Body

/-- The name `encoding/json` gives to the kind of a JSON value in an
`UnmarshalTypeError`. -/
def Json.kind : Json → String
  | Json.null => "null"
  | Json.bool _ => "bool"
  | Json.num _ => "number"
  | Json.str _ => "string"
  | Json.arr _ => "array"
  | Json.obj _ => "object"

/-- Decoding of the members of a JSON object into a `map[string]string`, in
order: a string member is stored, a `null` member stores the zero value `""`,
any other member records an `UnmarshalTypeError` (the earliest one is kept) and
decoding goes on. -/
def decodeMembers : List (String × Json) → GoMap String → Option Error →
    GoMap String × Option Error
  | [], m, saved => (m, saved)
  | (k, Json.str s) :: rest, m, saved => decodeMembers rest (m.set k s) saved
  | (k, Json.null) :: rest, m, saved => decodeMembers rest (m.set k "") saved
  | (k, v) :: rest, m, saved =>
    decodeMembers rest (m.set k "")
      (saved.orElse fun _ =>
        some ⟨"json: cannot unmarshal " ++ v.kind ++ " into Go value of type string"⟩)

/-- The call `json.NewDecoder(body).Decode(&facts)` for `facts` of type
`map[string]string`: the returned map is `facts` after the call.  A body that
is not JSON gives the decoder's error; `null` sets the map to nil without
error; an object is decoded member by member; any other value is an
`UnmarshalTypeError`. -/
def json_Decode (body : Body) (facts : GoMap String) : Except Error (GoMap String) :=
  match body with
  | Body.invalid err => Except.error err
  | Body.json Json.null => Except.ok []
  | Body.json (Json.obj members) =>
    match decodeMembers members facts none with
    | (m, none) => Except.ok m
    | (_, some err) => Except.error err
  | Body.json v =>
    Except.error ⟨"json: cannot unmarshal " ++ v.kind ++
      " into Go value of type map[string]string"⟩

/-- The call `json.NewEncoder(buf).Encode(body)` for `body` of type
`map[string]string`: the buffer then holds the JSON object with one string
member per entry.  Encoding a map of strings does not fail. -/
def json_Encode (body : GoMap String) : Except Error Json :=
  Except.ok (Json.obj (body.map fun kv => (kv.1, Json.str kv.2)))

/-! ## Package `net/http` -/

/-- An outbound `http.Request`: method, URL string and JSON body (`none` for a
nil body). -/
structure Request where
  Method : String
  URL : String
  Body : Option Json

/-- An `http.Response`: status line text (`"403 Forbidden"`), status code and
body. -/
structure Response where
  Status : String
  StatusCode : Int
  Body : Body

/-- The constant `http.MethodGet`. -/
def MethodGet : String := "GET"

/-- The constant `http.MethodPut`. -/
def MethodPut : String := "PUT"

/-- The function `http.NewRequest`.  It fails on an invalid method or on a URL
string that does not parse; the package passes a method constant and the
`String()` of a URL, for which it returns the request. -/
def http_NewRequest (method : String) (url : String) (body : Option Json) :
    Except Error Request :=
  Except.ok { Method := method, URL := url, Body := body }

/-- An `http.Client` together with the network and the remote store behind it:
`roundTrip` answers a request in a store state with a response or a transport
error, and the next store state. -/
structure HttpClient (σ : Type) where
  roundTrip : Request → σ → Except Error Response × σ

/-! ## OpenFeature types -/

/-- The type `openfeature.ResolutionError`; the zero value has empty fields. -/
structure ResolutionError where
  code : String
  message : String
deriving DecidableEq, Repr

/-- The function `openfeature.NewGeneralResolutionError`. -/
def NewGeneralResolutionError (msg : String) : ResolutionError :=
  { code := "GENERAL", message := msg }

/-- The type `openfeature.ProviderResolutionDetail`. -/
structure ProviderResolutionDetail where
  ResolutionError : ResolutionError := ⟨"", ""⟩
  Reason : String := ""
  Variant : String := ""
  FlagMetadata : GoMap Any := []

/-- The types `openfeature.BoolResolutionDetail`, `FloatResolutionDetail`,
`IntResolutionDetail`, `InterfaceResolutionDetail` and
`StringResolutionDetail`, by the type of `Value`. -/
structure ResolutionDetail (α : Type) where
  Value : α
  ProviderResolutionDetail : ProviderResolutionDetail

abbrev BoolResolutionDetail := ResolutionDetail Bool
abbrev FloatResolutionDetail := ResolutionDetail Float64
abbrev IntResolutionDetail := ResolutionDetail Int
abbrev InterfaceResolutionDetail := ResolutionDetail Any
abbrev StringResolutionDetail := ResolutionDetail String

/-- The evaluation methods of the interface `openfeature.FeatureProvider`, as
implemented by the wrapped provider. -/
structure FeatureProvider where
  BooleanEvaluation : Context → String → Bool → FlattenedContext → BoolResolutionDetail
  FloatEvaluation : Context → String → Float64 → FlattenedContext → FloatResolutionDetail
  IntEvaluation : Context → String → Int → FlattenedContext → IntResolutionDetail
  ObjectEvaluation : Context → String → Any → FlattenedContext → InterfaceResolutionDetail
  StringEvaluation : Context → String → String → FlattenedContext → StringResolutionDetail

/-- One invocation of the wrapped provider: which method, with which flag,
default and evaluation context. -/
inductive Invocation where
  | boolean (flag : String) (defaultValue : Bool) (evalCtx : FlattenedContext)
  | float (flag : String) (defaultValue : Float64) (evalCtx : FlattenedContext)
  | int (flag : String) (defaultValue : Int) (evalCtx : FlattenedContext)
  | object (flag : String) (defaultValue : Any) (evalCtx : FlattenedContext)
  | string (flag : String) (defaultValue : String) (evalCtx : FlattenedContext)

/-! ## The world around a provider -/

/-- What a call can observe and change outside the provider: the state of the
remote store, the requests handed to `http.Client.Do` so far and the
invocations of the wrapped provider so far, both oldest first. -/
structure World (σ : Type) where
  store : σ
  requests : List Request
  invocations : List Invocation

/-- The method `(*http.Client).Do`: the request is logged and answered by the
remote store. -/
def HttpClient.Do {σ : Type} (c : HttpClient σ) (req : Request) (w : World σ) :
    Except Error Response × World σ :=
  let (r, s) := c.roundTrip req w.store
  (r, { w with store := s, requests := w.requests ++ [req] })

/-- Logs an invocation of the wrapped provider. -/
def World.invoked {σ : Type} (w : World σ) (i : Invocation) : World σ :=
  { w with invocations := w.invocations ++ [i] }

/-- How a call ends: it returns a value, or a run-time panic unwinds it. -/
inductive Outcome (α : Type) where
  | returned (a : α) : Outcome α
  | panicked : Outcome α

/-- The end of an evaluation call: its outcome, the contents of the map the
caller passed as `evalCtx` (Go maps are references, so writes made by the call
are the caller's to see) and the world. -/
structure Evaluated (α : Type) (σ : Type) where
  outcome : Outcome α
  evalCtx : FlattenedContext
  world : World σ

/-! ## The provider (`pkg/provider.go`) -/

/-- The struct `Provider`. -/
structure Provider (σ : Type) where
  httpClient : HttpClient σ
  baseURL : URL
  featureProvider : FeatureProvider

/-- The function `NewProvider`.  The client that `&http.Client{}` denotes is
taken from the environment. -/
def NewProvider {σ : Type} (client : HttpClient σ) (rawBaseURL : String)
    (featureProvider : FeatureProvider) : Except Error (Provider σ) :=
  match url_Parse rawBaseURL with
  | Except.error err => Except.error err
  | Except.ok baseURL =>
    let provider : Provider σ :=
      { httpClient := client, baseURL := baseURL, featureProvider := featureProvider }
    Except.ok provider

/-- The method `(*Provider).getIdentityContext`. -/
def Provider.getIdentityContext {σ : Type} (p : Provider σ) (id : String) (w : World σ) :
    Except Error (GoMap String) × World σ :=
  let reqURL := p.baseURL.JoinPath ["/fact", id]
  match http_NewRequest MethodGet reqURL.String none with
  | Except.error err => (Except.error err, w)
  | Except.ok req =>
    match p.httpClient.Do req w with
    | (Except.error err, w1) => (Except.error err, w1)
    | (Except.ok resp, w1) =>
      let facts : GoMap String := []
      match json_Decode resp.Body facts with
      | Except.error err => (Except.error err, w1)
      | Except.ok facts => (Except.ok facts, w1)

/-- The function `injectIdentityContext`: every entry of `identityCtx` is
written into `evalCtx`, which is returned. -/
def injectIdentityContext (identityCtx : GoMap String) (evalCtx : FlattenedContext) :
    FlattenedContext :=
  identityCtx.foldl (fun m kv => m.set kv.1 (Any.str kv.2)) evalCtx

/-- The method `(*Provider).BooleanEvaluation`. -/
def Provider.BooleanEvaluation {σ : Type} (p : Provider σ) (ctx : Context) (flag : String)
    (defaultValue : Bool) (evalCtx : FlattenedContext) (w : World σ) :
    Evaluated (ResolutionDetail Bool) σ :=
  match evalCtx.get TargetingKey with
  | none =>
    ⟨Outcome.returned (p.featureProvider.BooleanEvaluation ctx flag defaultValue evalCtx), evalCtx,
      w.invoked (Invocation.boolean flag defaultValue evalCtx)⟩
  | some targetKey =>
    match targetKey.assertString with
    | none => ⟨Outcome.panicked, evalCtx, w⟩
    | some id =>
      match p.getIdentityContext id w with
      | (Except.error _, w1) =>
        ⟨Outcome.returned
          { Value := defaultValue,
            ProviderResolutionDetail :=
              { ResolutionError := NewGeneralResolutionError
                  "could not fetch identity context from data store" } },
          evalCtx, w1⟩
      | (Except.ok context, w1) =>
        let evalCtx1 := injectIdentityContext context evalCtx
        ⟨Outcome.returned (p.featureProvider.BooleanEvaluation ctx flag defaultValue evalCtx1), evalCtx1,
          w1.invoked (Invocation.boolean flag defaultValue evalCtx1)⟩

/-- The method `(*Provider).FloatEvaluation`. -/
def Provider.FloatEvaluation {σ : Type} (p : Provider σ) (ctx : Context) (flag : String)
    (defaultValue : Float64) (evalCtx : FlattenedContext) (w : World σ) :
    Evaluated (ResolutionDetail Float64) σ :=
  match evalCtx.get TargetingKey with
  | none =>
    ⟨Outcome.returned (p.featureProvider.FloatEvaluation ctx flag defaultValue evalCtx), evalCtx,
      w.invoked (Invocation.float flag defaultValue evalCtx)⟩
  | some targetKey =>
    match targetKey.assertString with
    | none => ⟨Outcome.panicked, evalCtx, w⟩
    | some id =>
      match p.getIdentityContext id w with
      | (Except.error _, w1) =>
        ⟨Outcome.returned
          { Value := defaultValue,
            ProviderResolutionDetail :=
              { ResolutionError := NewGeneralResolutionError
                  "could not fetch identity context from data store" } },
          evalCtx, w1⟩
      | (Except.ok context, w1) =>
        let evalCtx1 := injectIdentityContext context evalCtx
        ⟨Outcome.returned (p.featureProvider.FloatEvaluation ctx flag defaultValue evalCtx1), evalCtx1,
          w1.invoked (Invocation.float flag defaultValue evalCtx1)⟩

/-- The method `(*Provider).IntEvaluation`. -/
def Provider.IntEvaluation {σ : Type} (p : Provider σ) (ctx : Context) (flag : String)
    (defaultValue : Int) (evalCtx : FlattenedContext) (w : World σ) :
    Evaluated (ResolutionDetail Int) σ :=
  match evalCtx.get TargetingKey with
  | none =>
    ⟨Outcome.returned (p.featureProvider.IntEvaluation ctx flag defaultValue evalCtx), evalCtx,
      w.invoked (Invocation.int flag defaultValue evalCtx)⟩
  | some targetKey =>
    match targetKey.assertString with
    | none => ⟨Outcome.panicked, evalCtx, w⟩
    | some id =>
      match p.getIdentityContext id w with
      | (Except.error _, w1) =>
        ⟨Outcome.returned
          { Value := defaultValue,
            ProviderResolutionDetail :=
              { ResolutionError := NewGeneralResolutionError
                  "could not fetch identity context from data store" } },
          evalCtx, w1⟩
      | (Except.ok context, w1) =>
        let evalCtx1 := injectIdentityContext context evalCtx
        ⟨Outcome.returned (p.featureProvider.IntEvaluation ctx flag defaultValue evalCtx1), evalCtx1,
          w1.invoked (Invocation.int flag defaultValue evalCtx1)⟩

/-- The method `(*Provider).ObjectEvaluation`. -/
def Provider.ObjectEvaluation {σ : Type} (p : Provider σ) (ctx : Context) (flag : String)
    (defaultValue : Any) (evalCtx : FlattenedContext) (w : World σ) :
    Evaluated (ResolutionDetail Any) σ :=
  match evalCtx.get TargetingKey with
  | none =>
    ⟨Outcome.returned (p.featureProvider.ObjectEvaluation ctx flag defaultValue evalCtx), evalCtx,
      w.invoked (Invocation.object flag defaultValue evalCtx)⟩
  | some targetKey =>
    match targetKey.assertString with
    | none => ⟨Outcome.panicked, evalCtx, w⟩
    | some id =>
      match p.getIdentityContext id w with
      | (Except.error _, w1) =>
        ⟨Outcome.returned
          { Value := defaultValue,
            ProviderResolutionDetail :=
              { ResolutionError := NewGeneralResolutionError
                  "could not fetch identity context from data store" } },
          evalCtx, w1⟩
      | (Except.ok context, w1) =>
        let evalCtx1 := injectIdentityContext context evalCtx
        ⟨Outcome.returned (p.featureProvider.ObjectEvaluation ctx flag defaultValue evalCtx1), evalCtx1,
          w1.invoked (Invocation.object flag defaultValue evalCtx1)⟩

/-- The method `(*Provider).StringEvaluation`. -/
def Provider.StringEvaluation {σ : Type} (p : Provider σ) (ctx : Context) (flag : String)
    (defaultValue : String) (evalCtx : FlattenedContext) (w : World σ) :
    Evaluated (ResolutionDetail String) σ :=
  match evalCtx.get TargetingKey with
  | none =>
    ⟨Outcome.returned (p.featureProvider.StringEvaluation ctx flag defaultValue evalCtx), evalCtx,
      w.invoked (Invocation.string flag defaultValue evalCtx)⟩
  | some targetKey =>
    match targetKey.assertString with
    | none => ⟨Outcome.panicked, evalCtx, w⟩
    | some id =>
      match p.getIdentityContext id w with
      | (Except.error _, w1) =>
        ⟨Outcome.returned
          { Value := defaultValue,
            ProviderResolutionDetail :=
              { ResolutionError := NewGeneralResolutionError
                  "could not fetch identity context from data store" } },
          evalCtx, w1⟩
      | (Except.ok context, w1) =>
        let evalCtx1 := injectIdentityContext context evalCtx
        ⟨Outcome.returned (p.featureProvider.StringEvaluation ctx flag defaultValue evalCtx1), evalCtx1,
          w1.invoked (Invocation.string flag defaultValue evalCtx1)⟩

/-- The method `(*Provider).GetIdentityFacts`. -/
def Provider.GetIdentityFacts {σ : Type} (p : Provider σ) (_ctx : Context) (identity : String) (w : World σ) :
    Except Error (GoMap String) × World σ :=
  let reqURL := p.baseURL.JoinPath ["/fact", identity]
  match http_NewRequest MethodGet reqURL.String none with
  | Except.error err => (Except.error err, w)
  | Except.ok req =>
    match p.httpClient.Do req w with
    | (Except.error err, w1) => (Except.error err, w1)
    | (Except.ok resp, w1) =>
      let facts : GoMap String := []
      match json_Decode resp.Body facts with
      | Except.error err => (Except.error err, w1)
      | Except.ok facts => (Except.ok facts, w1)

/-- The method `(*Provider).SetIdentityFact`; the returned `Option Error` is the Go
`error`, `none` for nil. -/
def Provider.SetIdentityFact {σ : Type} (p : Provider σ) (_ctx : Context) (identity : String)
    (key : String) (value : String) (w : World σ) : Option Error × World σ :=
  let reqUrl := p.baseURL.JoinPath ["/fact", identity, key]
  let body : GoMap String := [("value", value)]
  match json_Encode body with
  | Except.error err => (some err, w)
  | Except.ok bodyBytes =>
    match http_NewRequest MethodPut reqUrl.String (some bodyBytes) with
    | Except.error err => (some err, w)
    | Except.ok req =>
      match p.httpClient.Do req w with
      | (Except.error err, w1) => (some err, w1)
      | (Except.ok resp, w1) =>
        if resp.StatusCode = 200 then (none, w1)
        else (some (errors_New resp.Status), w1)

/-- The method `(*Provider).GetIdentitySecrets`. -/
def Provider.GetIdentitySecrets {σ : Type} (p : Provider σ) (_ctx : Context) (identity : String) (w : World σ) :
    Except Error (GoMap String) × World σ :=
  let reqURL := p.baseURL.JoinPath ["/secret", identity]
  match http_NewRequest MethodGet reqURL.String none with
  | Except.error err => (Except.error err, w)
  | Except.ok req =>
    match p.httpClient.Do req w with
    | (Except.error err, w1) => (Except.error err, w1)
    | (Except.ok resp, w1) =>
      let secrets : GoMap String := []
      match json_Decode resp.Body secrets with
      | Except.error err => (Except.error err, w1)
      | Except.ok secrets => (Except.ok secrets, w1)

/-- The method `(*Provider).SetIdentitySecret`; the returned `Option Error` is the Go
`error`, `none` for nil. -/
def Provider.SetIdentitySecret {σ : Type} (p : Provider σ) (_ctx : Context) (identity : String)
    (key : String) (value : String) (w : World σ) : Option Error × World σ :=
  let reqUrl := p.baseURL.JoinPath ["/secret", identity, key]
  let body : GoMap String := [("value", value)]
  match json_Encode body with
  | Except.error err => (some err, w)
  | Except.ok bodyBytes =>
    match http_NewRequest MethodPut reqUrl.String (some bodyBytes) with
    | Except.error err => (some err, w)
    | Except.ok req =>
      match p.httpClient.Do req w with
      | (Except.error err, w1) => (some err, w1)
      | (Except.ok resp, w1) =>
        if resp.StatusCode = 200 then (none, w1)
        else (some (errors_New resp.Status), w1)

/-! ## Sample environment

A wrapped provider, remote stores and contexts on which the statements below
are evaluated. -/

/-- A wrapped provider that answers every flag with the default it is given,
reason `STATIC`, and the number of entries of the context as variant. -/
def staticProvider : FeatureProvider where
  BooleanEvaluation _ _ d c := ⟨d, { Reason := "STATIC", Variant := toString c.length }⟩
  FloatEvaluation _ _ d c := ⟨d, { Reason := "STATIC", Variant := toString c.length }⟩
  IntEvaluation _ _ d c := ⟨d, { Reason := "STATIC", Variant := toString c.length }⟩
  ObjectEvaluation _ _ d c := ⟨d, { Reason := "STATIC", Variant := toString c.length }⟩
  StringEvaluation _ _ d c := ⟨d, { Reason := "STATIC", Variant := toString c.length }⟩

/-- A remote store without state that answers every request with the same
response. -/
def fixedStore (resp : Response) : HttpClient Unit where
  roundTrip _ s := (Except.ok resp, s)

/-- A remote store that cannot be reached: every request is a transport
error. -/
def unreachableStore : HttpClient Unit where
  roundTrip _ s := (Except.error ⟨"dial tcp: connection refused"⟩, s)

/-- The URL `http://store`. -/
def sampleURL : URL := { Scheme := "http", Host := "store", Path := "" }

/-- A world in which nothing has happened yet. -/
def freshWorld {σ : Type} (s : σ) : World σ := { store := s, requests := [], invocations := [] }

/-- The response `200 OK` with body `{"plan":"pro","region":"eu"}`. -/
def factsResponse : Response :=
  { Status := "200 OK", StatusCode := 200,
    Body := Body.json (Json.obj [("plan", Json.str "pro"), ("region", Json.str "eu")]) }

/-- A provider over a store that answers with `factsResponse`. -/
def factsProvider : Provider Unit :=
  { httpClient := fixedStore factsResponse, baseURL := sampleURL, featureProvider := staticProvider }

/-- A provider over a store that cannot be reached. -/
def offlineProvider : Provider Unit :=
  { httpClient := unreachableStore, baseURL := sampleURL, featureProvider := staticProvider }

/-- An evaluation context without targeting key. -/
def anonymousCtx : FlattenedContext := [("plan", Any.str "free")]

/-- An evaluation context with targeting key `alice`. -/
def aliceCtx : FlattenedContext := [("targetingKey", Any.str "alice"), ("plan", Any.str "free")]

/-- An evaluation context whose targeting key is the number 7. -/
def numericKeyCtx : FlattenedContext := [("targetingKey", Any.int 7)]

/-- The response `500 Internal Server Error` with the JSON body `{}`. -/
def errorResponse : Response :=
  { Status := "500 Internal Server Error", StatusCode := 500, Body := Body.json (Json.obj []) }

/-- A provider over a store that answers with `errorResponse`. -/
def erringProvider : Provider Unit :=
  { httpClient := fixedStore errorResponse, baseURL := sampleURL,
    featureProvider := staticProvider }

/-- The response `500 Internal Server Error` with a body that is not JSON. -/
def brokenResponse : Response :=
  { Status := "500 Internal Server Error", StatusCode := 500,
    Body := Body.invalid ⟨"invalid character 'I' looking for beginning of value"⟩ }

/-- A provider over a store that answers with `brokenResponse`. -/
def brokenProvider : Provider Unit :=
  { httpClient := fixedStore brokenResponse, baseURL := sampleURL,
    featureProvider := staticProvider }

/-- The context `merged` is `evalCtx` overlaid with `facts`: every key reads
the fact when `facts` has the key, and otherwise what `evalCtx` reads. -/
def Overlaid (merged : FlattenedContext) (evalCtx : FlattenedContext) (facts : GoMap String) :
    Prop :=
  ∀ k : String, merged.get k =
    match facts.get k with
    | some v => some (Any.str v)
    | none => evalCtx.get k

/-- The URL `http://store?x=1`, a base URL with a query. -/
def queryURL : URL := { Scheme := "http", Host := "store", RawQuery := "x=1" }

/-- A provider whose base URL is `queryURL`, over a store that cannot be
reached. -/
def queryProvider : Provider Unit :=
  { httpClient := unreachableStore, baseURL := queryURL, featureProvider := staticProvider }

/-- The request `getIdentityContext` and `GetIdentityFacts` send for an
identity. -/
def factsRequest {σ : Type} (p : Provider σ) (identity : String) : Request :=
  { Method := MethodGet, URL := (p.baseURL.JoinPath ["/fact", identity]).String, Body := none }

/-- The request `SetIdentityFact` (`seg` = `/fact`) and `SetIdentitySecret`
(`seg` = `/secret`) send. -/
def putRequest {σ : Type} (p : Provider σ) (seg identity key value : String) : Request :=
  { Method := MethodPut, URL := (p.baseURL.JoinPath [seg, identity, key]).String,
    Body := some (Json.obj [("value", Json.str value)]) }

/-- A character that may occur in a URL by RFC 3986: an unreserved or a
reserved character, or the percent sign of an escape. -/
def urlCharacter (c : Char) : Bool :=
  c.isAlphanum || c ∈ ['-', '.', '_', '~', ':', '/', '?', '#', '[', ']', '@', '!', '$', '&', '\'',
    '(', ')', '*', '+', ',', ';', '=', '%']

/-- Every character of the string may occur in a URL, as it must in a
syntactically valid URL. -/
def URLCharactersOnly (s : String) : Prop := ∀ c ∈ s.data, urlCharacter c = true

/-- The response `403 Forbidden` without a JSON body. -/
def forbiddenResponse : Response :=
  { Status := "403 Forbidden", StatusCode := 403, Body := Body.invalid ⟨"EOF"⟩ }

/-- A provider over a store that answers with `forbiddenResponse`. -/
def forbiddenProvider : Provider Unit :=
  { httpClient := fixedStore forbiddenResponse, baseURL := sampleURL,
    featureProvider := staticProvider }

/-- The response `200 OK` with the JSON body `null`. -/
def nullResponse : Response :=
  { Status := "200 OK", StatusCode := 200, Body := Body.json Json.null }

/-- A provider over a store that answers with `nullResponse`. -/
def nullProvider : Provider Unit :=
  { httpClient := fixedStore nullResponse, baseURL := sampleURL,
    featureProvider := staticProvider }

/-- The body is a JSON object all of whose member values are strings. -/
def IsStringObject (body : Body) : Prop :=
  ∃ members, body = Body.json (Json.obj members) ∧ ∀ kv ∈ members, ∃ s, kv.2 = Json.str s

/-- The member value is a string or `null`. -/
def StringOrNull (v : Json) : Prop := v = Json.null ∨ ∃ s, v = Json.str s

/-- The bodies the decoder accepts for a map of strings: `null`, and the
objects whose member values are strings or `null`. -/
def DecodesToStringMap (body : Body) : Prop :=
  body = Body.json Json.null ∨
    ∃ members, body = Body.json (Json.obj members) ∧ ∀ kv ∈ members, StringOrNull kv.2

/-- The value of the member `k` of a JSON object, the last one when the name is
repeated. -/
def lastMember : List (String × Json) → String → Option Json
  | [], _ => none
  | (k', v) :: rest, k =>
    match lastMember rest k with
    | some v' => some v'
    | none => if k' = k then some v else none

/-- The string a member value stands for: the string itself, and the empty
string for `null`. -/
def memberString : Json → String
  | Json.str s => s
  | _ => ""

/-- A character that `escape` leaves alone in a path and that does not
separate segments: an ASCII letter or digit, or one of `-`, `_`, `.`, `~`,
`$`, `&`, `+`, `,`, `:`, `;`, `=`, `@`. -/
def pathChar (c : Char) : Bool :=
  c.isAlphanum || c ∈ ['-', '_', '.', '~', '$', '&', '+', ',', ':', ';', '=', '@']

/-- A single clean path segment: not empty, not `.` and not `..`, made of
characters that a path holds as they are. -/
def PlainSegment (s : String) : Prop :=
  s ≠ "" ∧ s ≠ "." ∧ s ≠ ".." ∧ ∀ c ∈ s.data, pathChar c = true

instance (s : String) : Decidable (PlainSegment s) := by
  unfold PlainSegment
  exact inferInstance

/-- The path `/s1/.../sn` made of the segments `s1`, ..., `sn`; the empty path
for no segment. -/
def pathOf : List String → String
  | [] => ""
  | seg :: rest => "/" ++ seg ++ pathOf rest

/-- The segments `path.Clean` keeps as they are. -/
def KeptSegment (seg : List Char) : Prop := seg ≠ [] ∧ seg ≠ ['.'] ∧ seg ≠ ['.', '.']

/-- A map representation without repeated keys. -/
def GoMap.WF {V : Type} (m : GoMap V) : Prop := (m.map Prod.fst).Nodup

/-! ## A stub data store

The store of the round-trip property: it persists what is written.  A
`PUT /fact/{identity}/{key}` with body `{"value": v}` records `v` under `key`
for `identity` and is answered with 200; a `GET /fact/{identity}` is answered
with the JSON object of what is recorded for `identity`; anything else is
answered with 404 or 400. -/

/-- What the stub store has recorded: for each identity its facts. -/
abbrev StubState := GoMap (GoMap String)

/-- The rest of `s` after the prefix `pre`, if `s` starts with `pre`. -/
def stripPrefix : List Char → List Char → Option (List Char)
  | [], s => some s
  | _ :: _, [] => none
  | a :: pre, b :: s => if a = b then stripPrefix pre s else none

/-- The answer `200 OK` with an empty body. -/
def okResponse : Response :=
  { Status := "200 OK", StatusCode := 200, Body := Body.invalid ⟨"EOF"⟩ }

/-- The answer `404 Not Found`, whose body `404 page not found` starts with the
JSON number 404. -/
def notFoundResponse : Response :=
  { Status := "404 Not Found", StatusCode := 404, Body := Body.json (Json.num "404") }

/-- The answer `400 Bad Request` with an empty body. -/
def badRequestResponse : Response :=
  { Status := "400 Bad Request", StatusCode := 400, Body := Body.invalid ⟨"EOF"⟩ }

/-- The path of a request: what follows the address of the store in the URL,
up to the query or the fragment. -/
def requestPath (afterRoot : List Char) : List Char :=
  (cutChar '?' (cutChar '#' afterRoot).1).1

/-- The stub store served at `root`, the text of a URL up to the end of its
path. -/
def stubStore (root : String) : HttpClient StubState where
  roundTrip req s :=
    match stripPrefix root.data req.URL.data with
    | none => (Except.ok notFoundResponse, s)
    | some afterRoot =>
      match splitSlash (requestPath afterRoot) with
      | [[], f, identity, key] =>
        if req.Method = MethodPut ∧ f = "fact".data ∧ identity ≠ [] ∧ key ≠ [] then
          match req.Body with
          | some (Json.obj members) =>
            match lastMember members "value" with
            | some (Json.str v) =>
              (Except.ok okResponse,
                s.set (String.mk identity)
                  (((s.get (String.mk identity)).getD []).set (String.mk key) v))
            | _ => (Except.ok badRequestResponse, s)
          | _ => (Except.ok badRequestResponse, s)
        else (Except.ok notFoundResponse, s)
      | [[], f, identity] =>
        if req.Method = MethodGet ∧ f = "fact".data ∧ identity ≠ [] then
          (Except.ok
            { Status := "200 OK", StatusCode := 200,
              Body := Body.json (Json.obj
                (((s.get (String.mk identity)).getD []).map fun kv => (kv.1, Json.str kv.2))) },
            s)
        else (Except.ok notFoundResponse, s)
      | _ => (Except.ok notFoundResponse, s)

/-- A provider whose base URL is the URL at which the stub store is served. -/
def stubProvider (base : URL) (featureProvider : FeatureProvider) : Provider StubState :=
  { httpClient := stubStore (base.origin ++ base.Path), baseURL := base,
    featureProvider := featureProvider }

/-- Every fact map recorded in the store is a map: no key is repeated. -/
def StubState.WF (s : StubState) : Prop := ∀ identity m, s.get identity = some m → m.WF

/-! ## Facts about Go maps -/

theorem GoMap.get_set {V : Type} (m : GoMap V) (k : String) (v : V) (k' : String) :
    (m.set k v).get k' = if k = k' then some v else m.get k' := by
  induction m with
  | nil => simp [GoMap.set, GoMap.get]
  | cons e m ih =>
    obtain ⟨k0, v0⟩ := e
    by_cases h0 : k0 = k
    · subst h0
      by_cases h1 : k0 = k' <;> simp [GoMap.set, GoMap.get, h1]
    · by_cases h1 : k0 = k'
      · subst h1
        have h2 : ¬ k = k0 := fun h => h0 h.symm
        simp [GoMap.set, GoMap.get, h0, h2]
      · simp [GoMap.set, GoMap.get, h0, h1, ih]

theorem GoMap.get_eq_none_of_not_mem {V : Type} (m : GoMap V) (k : String)
    (h : k ∉ m.map Prod.fst) : m.get k = none := by
  induction m with
  | nil => rfl
  | cons e m ih =>
    obtain ⟨k0, v0⟩ := e
    simp only [List.map_cons, List.mem_cons, not_or] at h
    have h0 : ¬ k0 = k := fun h' => h.1 h'.symm
    simp [GoMap.get, h0, ih h.2]

theorem GoMap.keys_set {V : Type} (m : GoMap V) (k : String) (v : V) :
    (m.set k v).map Prod.fst =
      if k ∈ m.map Prod.fst then m.map Prod.fst else m.map Prod.fst ++ [k] := by
  induction m with
  | nil => simp [GoMap.set]
  | cons e m ih =>
    obtain ⟨k0, v0⟩ := e
    by_cases h0 : k0 = k
    · subst h0
      simp [GoMap.set]
    · have h2 : ¬ k = k0 := fun h => h0 h.symm
      by_cases hm : k ∈ m.map Prod.fst
      · simp only [GoMap.set, h0, if_false, List.map_cons, ih, hm, if_true, List.mem_cons,
          or_true]
      · simp only [GoMap.set, h0, if_false, List.map_cons, ih, hm, List.mem_cons, h2,
          or_self, List.cons_append]

theorem GoMap.WF_set {V : Type} (m : GoMap V) (k : String) (v : V) (h : m.WF) :
    (m.set k v).WF := by
  unfold GoMap.WF at *
  rw [GoMap.keys_set]
  split
  · exact h
  · rename_i hk
    rw [List.nodup_append]
    refine ⟨h, List.nodup_singleton k, ?_⟩
    intro a ha hb
    simp only [List.mem_singleton] at hb
    subst hb
    exact hk ha

/-- Reading the merged context: a key of the identity facts reads the fact,
any other key reads what the context held. -/
theorem injectIdentityContext_get (identityCtx : GoMap String) (h : identityCtx.WF)
    (evalCtx : FlattenedContext) (k : String) :
    (injectIdentityContext identityCtx evalCtx).get k =
      match identityCtx.get k with
      | some v => some (Any.str v)
      | none => evalCtx.get k := by
  induction identityCtx generalizing evalCtx with
  | nil => rfl
  | cons e m ih =>
    obtain ⟨k0, v0⟩ := e
    have hwf : (m.map Prod.fst).Nodup ∧ k0 ∉ m.map Prod.fst := by
      have := h
      unfold GoMap.WF at this
      simp only [List.map_cons, List.nodup_cons] at this
      exact ⟨this.2, this.1⟩
    have hstep : injectIdentityContext ((k0, v0) :: m) evalCtx =
        injectIdentityContext m (evalCtx.set k0 (Any.str v0)) := rfl
    rw [hstep, ih hwf.1]
    by_cases hk : k0 = k
    · subst hk
      simp [GoMap.get, GoMap.get_eq_none_of_not_mem m k0 hwf.2, GoMap.get_set]
    · simp [GoMap.get, hk, GoMap.get_set]

theorem decodeMembers_WF (members : List (String × Json)) (m : GoMap String)
    (saved : Option Error) (h : m.WF) : (decodeMembers members m saved).1.WF := by
  induction members generalizing m saved with
  | nil => exact h
  | cons e rest ih =>
    obtain ⟨k, v⟩ := e
    cases v <;> simp only [decodeMembers] <;> exact ih _ _ (GoMap.WF_set _ _ _ h)

theorem json_Decode_WF (body : Body) (m : GoMap String) (h : json_Decode body [] = Except.ok m) :
    m.WF := by
  unfold json_Decode at h
  split at h
  · cases h
  · cases h
    exact List.nodup_nil
  · rename_i members
    have hwf := decodeMembers_WF members [] none List.nodup_nil
    split at h
    · rename_i m' hd
      cases h
      rw [hd] at hwf
      exact hwf
    · cases h
  · cases h

theorem getIdentityContext_WF {σ : Type} (p : Provider σ) (id : String) (w w1 : World σ)
    (facts : GoMap String) (h : p.getIdentityContext id w = (Except.ok facts, w1)) :
    facts.WF := by
  unfold Provider.getIdentityContext at h
  simp only [http_NewRequest] at h
  split at h
  · cases h
  · split at h
    · cases h
    · rename_i hd
      simp only [Prod.mk.injEq, Except.ok.injEq] at h
      rw [← h.1]
      exact json_Decode_WF _ _ hd

/-! ## Evaluation without a targeting key -/

/-- C1: when the evaluation context has no targeting-key entry, each of the
five evaluations returns what the wrapped provider returns for the same flag,
default and context, hands no request to the HTTP client and leaves the remote
store alone. -/
theorem evaluation_without_targeting_key {σ : Type} (p : Provider σ) (ctx : Context)
    (flag : String) (evalCtx : FlattenedContext) (w : World σ)
    (h : evalCtx.get TargetingKey = none) :
    (∀ d : Bool,
      (p.BooleanEvaluation ctx flag d evalCtx w).outcome =
          Outcome.returned (p.featureProvider.BooleanEvaluation ctx flag d evalCtx) ∧
        (p.BooleanEvaluation ctx flag d evalCtx w).world.requests = w.requests ∧
        (p.BooleanEvaluation ctx flag d evalCtx w).world.store = w.store) ∧
    (∀ d : Float64,
      (p.FloatEvaluation ctx flag d evalCtx w).outcome =
          Outcome.returned (p.featureProvider.FloatEvaluation ctx flag d evalCtx) ∧
        (p.FloatEvaluation ctx flag d evalCtx w).world.requests = w.requests ∧
        (p.FloatEvaluation ctx flag d evalCtx w).world.store = w.store) ∧
    (∀ d : Int,
      (p.IntEvaluation ctx flag d evalCtx w).outcome =
          Outcome.returned (p.featureProvider.IntEvaluation ctx flag d evalCtx) ∧
        (p.IntEvaluation ctx flag d evalCtx w).world.requests = w.requests ∧
        (p.IntEvaluation ctx flag d evalCtx w).world.store = w.store) ∧
    (∀ d : Any,
      (p.ObjectEvaluation ctx flag d evalCtx w).outcome =
          Outcome.returned (p.featureProvider.ObjectEvaluation ctx flag d evalCtx) ∧
        (p.ObjectEvaluation ctx flag d evalCtx w).world.requests = w.requests ∧
        (p.ObjectEvaluation ctx flag d evalCtx w).world.store = w.store) ∧
    (∀ d : String,
      (p.StringEvaluation ctx flag d evalCtx w).outcome =
          Outcome.returned (p.featureProvider.StringEvaluation ctx flag d evalCtx) ∧
        (p.StringEvaluation ctx flag d evalCtx w).world.requests = w.requests ∧
        (p.StringEvaluation ctx flag d evalCtx w).world.store = w.store) := by
  simp [Provider.BooleanEvaluation, Provider.FloatEvaluation, Provider.IntEvaluation,
    Provider.ObjectEvaluation, Provider.StringEvaluation, h, World.invoked]

theorem evaluation_without_targeting_key_witness :
    anonymousCtx.get TargetingKey = none ∧
    (∀ d : Bool,
      (offlineProvider.BooleanEvaluation ⟨0⟩ "beta" d anonymousCtx (freshWorld ())).outcome =
          Outcome.returned (offlineProvider.featureProvider.BooleanEvaluation ⟨0⟩ "beta" d anonymousCtx) ∧
        (offlineProvider.BooleanEvaluation ⟨0⟩ "beta" d anonymousCtx (freshWorld ())).world.requests =
          (freshWorld ()).requests ∧
        (offlineProvider.BooleanEvaluation ⟨0⟩ "beta" d anonymousCtx (freshWorld ())).world.store =
          (freshWorld ()).store) ∧
    (∀ d : Float64,
      (offlineProvider.FloatEvaluation ⟨0⟩ "beta" d anonymousCtx (freshWorld ())).outcome =
          Outcome.returned (offlineProvider.featureProvider.FloatEvaluation ⟨0⟩ "beta" d anonymousCtx) ∧
        (offlineProvider.FloatEvaluation ⟨0⟩ "beta" d anonymousCtx (freshWorld ())).world.requests =
          (freshWorld ()).requests ∧
        (offlineProvider.FloatEvaluation ⟨0⟩ "beta" d anonymousCtx (freshWorld ())).world.store =
          (freshWorld ()).store) ∧
    (∀ d : Int,
      (offlineProvider.IntEvaluation ⟨0⟩ "beta" d anonymousCtx (freshWorld ())).outcome =
          Outcome.returned (offlineProvider.featureProvider.IntEvaluation ⟨0⟩ "beta" d anonymousCtx) ∧
        (offlineProvider.IntEvaluation ⟨0⟩ "beta" d anonymousCtx (freshWorld ())).world.requests =
          (freshWorld ()).requests ∧
        (offlineProvider.IntEvaluation ⟨0⟩ "beta" d anonymousCtx (freshWorld ())).world.store =
          (freshWorld ()).store) ∧
    (∀ d : Any,
      (offlineProvider.ObjectEvaluation ⟨0⟩ "beta" d anonymousCtx (freshWorld ())).outcome =
          Outcome.returned (offlineProvider.featureProvider.ObjectEvaluation ⟨0⟩ "beta" d anonymousCtx) ∧
        (offlineProvider.ObjectEvaluation ⟨0⟩ "beta" d anonymousCtx (freshWorld ())).world.requests =
          (freshWorld ()).requests ∧
        (offlineProvider.ObjectEvaluation ⟨0⟩ "beta" d anonymousCtx (freshWorld ())).world.store =
          (freshWorld ()).store) ∧
    (∀ d : String,
      (offlineProvider.StringEvaluation ⟨0⟩ "beta" d anonymousCtx (freshWorld ())).outcome =
          Outcome.returned (offlineProvider.featureProvider.StringEvaluation ⟨0⟩ "beta" d anonymousCtx) ∧
        (offlineProvider.StringEvaluation ⟨0⟩ "beta" d anonymousCtx (freshWorld ())).world.requests =
          (freshWorld ()).requests ∧
        (offlineProvider.StringEvaluation ⟨0⟩ "beta" d anonymousCtx (freshWorld ())).world.store =
          (freshWorld ()).store) :=
  ⟨rfl, evaluation_without_targeting_key offlineProvider ⟨0⟩ "beta" anonymousCtx (freshWorld ()) rfl⟩

/-! ## Evaluation with a successful fetch -/

/-- C2: when the context `evalCtx` has a targeting key, a string `id`, and the
fetch for `id` succeeds with facts `facts`, each of the five evaluations
returns what the wrapped provider returns for the original flag and default and
the merged context, and the merged context reads, at every key, the fact when
`facts` has the key and otherwise what `evalCtx` reads there. -/
theorem evaluation_with_fetched_facts {σ : Type} (p : Provider σ) (ctx : Context)
    (flag : String) (evalCtx : FlattenedContext) (w w1 : World σ) (id : String)
    (facts : GoMap String)
    (hkey : evalCtx.get TargetingKey = some (Any.str id))
    (hfetch : p.getIdentityContext id w = (Except.ok facts, w1)) :
    (∀ k : String, (injectIdentityContext facts evalCtx).get k =
        match facts.get k with
        | some v => some (Any.str v)
        | none => evalCtx.get k) ∧
    (∀ d : Bool,
      (p.BooleanEvaluation ctx flag d evalCtx w).outcome =
        Outcome.returned
          (p.featureProvider.BooleanEvaluation ctx flag d (injectIdentityContext facts evalCtx))) ∧
    (∀ d : Float64,
      (p.FloatEvaluation ctx flag d evalCtx w).outcome =
        Outcome.returned
          (p.featureProvider.FloatEvaluation ctx flag d (injectIdentityContext facts evalCtx))) ∧
    (∀ d : Int,
      (p.IntEvaluation ctx flag d evalCtx w).outcome =
        Outcome.returned
          (p.featureProvider.IntEvaluation ctx flag d (injectIdentityContext facts evalCtx))) ∧
    (∀ d : Any,
      (p.ObjectEvaluation ctx flag d evalCtx w).outcome =
        Outcome.returned
          (p.featureProvider.ObjectEvaluation ctx flag d (injectIdentityContext facts evalCtx))) ∧
    (∀ d : String,
      (p.StringEvaluation ctx flag d evalCtx w).outcome =
        Outcome.returned
          (p.featureProvider.StringEvaluation ctx flag d (injectIdentityContext facts evalCtx))) := by
  refine ⟨fun k => injectIdentityContext_get facts (getIdentityContext_WF p id w w1 facts hfetch)
    evalCtx k, ?_⟩
  simp [Provider.BooleanEvaluation, Provider.FloatEvaluation, Provider.IntEvaluation,
    Provider.ObjectEvaluation, Provider.StringEvaluation, hkey, hfetch, Any.assertString]

theorem evaluation_with_fetched_facts_witness :
    aliceCtx.get TargetingKey = some (Any.str "alice") ∧
    factsProvider.getIdentityContext "alice" (freshWorld ()) =
      (Except.ok [("plan", "pro"), ("region", "eu")],
        { store := (), requests := [⟨"GET", "http://store/fact/alice", none⟩],
          invocations := [] }) ∧
    (∀ k : String, (injectIdentityContext [("plan", "pro"), ("region", "eu")] aliceCtx).get k =
        match GoMap.get [("plan", "pro"), ("region", "eu")] k with
        | some v => some (Any.str v)
        | none => aliceCtx.get k) ∧
    (∀ d : Bool,
      (factsProvider.BooleanEvaluation ⟨0⟩ "beta" d aliceCtx (freshWorld ())).outcome =
        Outcome.returned
          (factsProvider.featureProvider.BooleanEvaluation ⟨0⟩ "beta" d
            (injectIdentityContext [("plan", "pro"), ("region", "eu")] aliceCtx))) ∧
    (∀ d : Float64,
      (factsProvider.FloatEvaluation ⟨0⟩ "beta" d aliceCtx (freshWorld ())).outcome =
        Outcome.returned
          (factsProvider.featureProvider.FloatEvaluation ⟨0⟩ "beta" d
            (injectIdentityContext [("plan", "pro"), ("region", "eu")] aliceCtx))) ∧
    (∀ d : Int,
      (factsProvider.IntEvaluation ⟨0⟩ "beta" d aliceCtx (freshWorld ())).outcome =
        Outcome.returned
          (factsProvider.featureProvider.IntEvaluation ⟨0⟩ "beta" d
            (injectIdentityContext [("plan", "pro"), ("region", "eu")] aliceCtx))) ∧
    (∀ d : Any,
      (factsProvider.ObjectEvaluation ⟨0⟩ "beta" d aliceCtx (freshWorld ())).outcome =
        Outcome.returned
          (factsProvider.featureProvider.ObjectEvaluation ⟨0⟩ "beta" d
            (injectIdentityContext [("plan", "pro"), ("region", "eu")] aliceCtx))) ∧
    (∀ d : String,
      (factsProvider.StringEvaluation ⟨0⟩ "beta" d aliceCtx (freshWorld ())).outcome =
        Outcome.returned
          (factsProvider.featureProvider.StringEvaluation ⟨0⟩ "beta" d
            (injectIdentityContext [("plan", "pro"), ("region", "eu")] aliceCtx))) :=
  ⟨rfl, rfl,
    evaluation_with_fetched_facts factsProvider ⟨0⟩ "beta" aliceCtx (freshWorld ()) _ "alice"
      [("plan", "pro"), ("region", "eu")] rfl rfl⟩

/-! ## Evaluation with a failed fetch -/

theorem HttpClient.Do_eq {σ : Type} (c : HttpClient σ) (req : Request) (w : World σ) :
    c.Do req w =
      ((c.roundTrip req w.store).1,
        { store := (c.roundTrip req w.store).2, requests := w.requests ++ [req],
          invocations := w.invocations }) := rfl

/-- The fetch in one equation: the request is logged, the store moves on, and
the result is the transport error or the decoding of the response body. -/
theorem getIdentityContext_eq {σ : Type} (p : Provider σ) (id : String) (w : World σ) :
    p.getIdentityContext id w =
      ((match (p.httpClient.roundTrip (factsRequest p id) w.store).1 with
        | Except.error e => Except.error e
        | Except.ok resp => json_Decode resp.Body []),
        { store := (p.httpClient.roundTrip (factsRequest p id) w.store).2,
          requests := w.requests ++ [factsRequest p id], invocations := w.invocations }) := by
  rw [Provider.getIdentityContext]
  simp only [http_NewRequest]
  rw [HttpClient.Do_eq]
  unfold factsRequest
  generalize p.httpClient.roundTrip _ w.store = rt
  obtain ⟨r, s⟩ := rt
  cases r with
  | error e => rfl
  | ok resp =>
    simp only
    cases json_Decode resp.Body [] <;> rfl

theorem getIdentityContext_transport_error {σ : Type} (p : Provider σ) (id : String)
    (w : World σ) (e : Error) (h : (p.httpClient.roundTrip (factsRequest p id) w.store).1 =
      Except.error e) :
    (p.getIdentityContext id w).1 = Except.error e := by
  rw [getIdentityContext_eq, h]

theorem getIdentityContext_response {σ : Type} (p : Provider σ) (id : String)
    (w : World σ) (resp : Response)
    (h : (p.httpClient.roundTrip (factsRequest p id) w.store).1 = Except.ok resp) :
    (p.getIdentityContext id w).1 = json_Decode resp.Body [] := by
  rw [getIdentityContext_eq, h]

/-- C3, as the code has it: when the context has a targeting key, a string
`id`, and the fetch for `id` fails, that is the transport fails or the body of
the response, whatever its status code, does not decode into a map of strings,
each of the five evaluations returns the caller's default with the general
resolution error "could not fetch identity context from data store", and the
wrapped provider is not invoked. -/
theorem evaluation_with_failed_fetch {σ : Type} (p : Provider σ) (ctx : Context)
    (flag : String) (evalCtx : FlattenedContext) (w : World σ) (id : String)
    (hkey : evalCtx.get TargetingKey = some (Any.str id))
    (hfail : (∃ e, (p.httpClient.roundTrip (factsRequest p id) w.store).1 = Except.error e) ∨
      (∃ resp e, (p.httpClient.roundTrip (factsRequest p id) w.store).1 = Except.ok resp ∧
        json_Decode resp.Body [] = Except.error e)) :
    (∀ d : Bool,
      (p.BooleanEvaluation ctx flag d evalCtx w).outcome =
          Outcome.returned
            { Value := d,
              ProviderResolutionDetail :=
                { ResolutionError :=
                    { code := "GENERAL",
                      message := "could not fetch identity context from data store" } } } ∧
        (p.BooleanEvaluation ctx flag d evalCtx w).world.invocations = w.invocations) ∧
    (∀ d : Float64,
      (p.FloatEvaluation ctx flag d evalCtx w).outcome =
          Outcome.returned
            { Value := d,
              ProviderResolutionDetail :=
                { ResolutionError :=
                    { code := "GENERAL",
                      message := "could not fetch identity context from data store" } } } ∧
        (p.FloatEvaluation ctx flag d evalCtx w).world.invocations = w.invocations) ∧
    (∀ d : Int,
      (p.IntEvaluation ctx flag d evalCtx w).outcome =
          Outcome.returned
            { Value := d,
              ProviderResolutionDetail :=
                { ResolutionError :=
                    { code := "GENERAL",
                      message := "could not fetch identity context from data store" } } } ∧
        (p.IntEvaluation ctx flag d evalCtx w).world.invocations = w.invocations) ∧
    (∀ d : Any,
      (p.ObjectEvaluation ctx flag d evalCtx w).outcome =
          Outcome.returned
            { Value := d,
              ProviderResolutionDetail :=
                { ResolutionError :=
                    { code := "GENERAL",
                      message := "could not fetch identity context from data store" } } } ∧
        (p.ObjectEvaluation ctx flag d evalCtx w).world.invocations = w.invocations) ∧
    (∀ d : String,
      (p.StringEvaluation ctx flag d evalCtx w).outcome =
          Outcome.returned
            { Value := d,
              ProviderResolutionDetail :=
                { ResolutionError :=
                    { code := "GENERAL",
                      message := "could not fetch identity context from data store" } } } ∧
        (p.StringEvaluation ctx flag d evalCtx w).world.invocations = w.invocations) := by
  have hfetch : ∃ e, (p.getIdentityContext id w).1 = Except.error e := by
    rcases hfail with ⟨e, he⟩ | ⟨resp, e, hr, hd⟩
    · exact ⟨e, getIdentityContext_transport_error p id w e he⟩
    · exact ⟨e, by rw [getIdentityContext_response p id w resp hr, hd]⟩
  obtain ⟨e, he⟩ := hfetch
  have hinv : (p.getIdentityContext id w).2.invocations = w.invocations := by
    rw [getIdentityContext_eq]
  rcases hf : p.getIdentityContext id w with ⟨r, w1⟩
  rw [hf] at he hinv
  simp only at he hinv
  subst he
  simp [Provider.BooleanEvaluation, Provider.FloatEvaluation, Provider.IntEvaluation,
    Provider.ObjectEvaluation, Provider.StringEvaluation, hkey, hf, Any.assertString, hinv,
    NewGeneralResolutionError]

theorem evaluation_with_failed_fetch_witness :
    aliceCtx.get TargetingKey = some (Any.str "alice") ∧
    ((∃ e, (brokenProvider.httpClient.roundTrip (factsRequest brokenProvider "alice")
        (freshWorld ()).store).1 = Except.error e) ∨
      (∃ resp e, (brokenProvider.httpClient.roundTrip (factsRequest brokenProvider "alice")
          (freshWorld ()).store).1 = Except.ok resp ∧
        json_Decode resp.Body [] = Except.error e)) ∧
    (∀ d : Bool,
      (brokenProvider.BooleanEvaluation ⟨0⟩ "beta" d aliceCtx (freshWorld ())).outcome =
          Outcome.returned
            { Value := d,
              ProviderResolutionDetail :=
                { ResolutionError :=
                    { code := "GENERAL",
                      message := "could not fetch identity context from data store" } } } ∧
        (brokenProvider.BooleanEvaluation ⟨0⟩ "beta" d aliceCtx (freshWorld ())).world.invocations =
          (freshWorld ()).invocations) ∧
    (∀ d : Float64,
      (brokenProvider.FloatEvaluation ⟨0⟩ "beta" d aliceCtx (freshWorld ())).outcome =
          Outcome.returned
            { Value := d,
              ProviderResolutionDetail :=
                { ResolutionError :=
                    { code := "GENERAL",
                      message := "could not fetch identity context from data store" } } } ∧
        (brokenProvider.FloatEvaluation ⟨0⟩ "beta" d aliceCtx (freshWorld ())).world.invocations =
          (freshWorld ()).invocations) ∧
    (∀ d : Int,
      (brokenProvider.IntEvaluation ⟨0⟩ "beta" d aliceCtx (freshWorld ())).outcome =
          Outcome.returned
            { Value := d,
              ProviderResolutionDetail :=
                { ResolutionError :=
                    { code := "GENERAL",
                      message := "could not fetch identity context from data store" } } } ∧
        (brokenProvider.IntEvaluation ⟨0⟩ "beta" d aliceCtx (freshWorld ())).world.invocations =
          (freshWorld ()).invocations) ∧
    (∀ d : Any,
      (brokenProvider.ObjectEvaluation ⟨0⟩ "beta" d aliceCtx (freshWorld ())).outcome =
          Outcome.returned
            { Value := d,
              ProviderResolutionDetail :=
                { ResolutionError :=
                    { code := "GENERAL",
                      message := "could not fetch identity context from data store" } } } ∧
        (brokenProvider.ObjectEvaluation ⟨0⟩ "beta" d aliceCtx (freshWorld ())).world.invocations =
          (freshWorld ()).invocations) ∧
    (∀ d : String,
      (brokenProvider.StringEvaluation ⟨0⟩ "beta" d aliceCtx (freshWorld ())).outcome =
          Outcome.returned
            { Value := d,
              ProviderResolutionDetail :=
                { ResolutionError :=
                    { code := "GENERAL",
                      message := "could not fetch identity context from data store" } } } ∧
        (brokenProvider.StringEvaluation ⟨0⟩ "beta" d aliceCtx (freshWorld ())).world.invocations =
          (freshWorld ()).invocations) :=
  ⟨rfl, Or.inr ⟨brokenResponse, _, rfl, rfl⟩,
    evaluation_with_failed_fetch brokenProvider ⟨0⟩ "beta" aliceCtx (freshWorld ()) "alice" rfl
      (Or.inr ⟨brokenResponse, _, rfl, rfl⟩)⟩

/-- C3 as stated fails: a response with status 500 whose body is the JSON
object `{}` is not a failed fetch.  The wrapped provider is invoked and its
result, which carries no resolution error, is returned. -/
theorem evaluation_http_500_counterexample :
    aliceCtx.get TargetingKey = some (Any.str "alice") ∧
    (erringProvider.httpClient.roundTrip (factsRequest erringProvider "alice")
      (freshWorld ()).store).1 = Except.ok errorResponse ∧
    errorResponse.StatusCode = 500 ∧
    (erringProvider.BooleanEvaluation ⟨0⟩ "beta" true aliceCtx (freshWorld ())).outcome =
      Outcome.returned (staticProvider.BooleanEvaluation ⟨0⟩ "beta" true aliceCtx) ∧
    (staticProvider.BooleanEvaluation ⟨0⟩ "beta" true aliceCtx).ProviderResolutionDetail.ResolutionError
      ≠ NewGeneralResolutionError "could not fetch identity context from data store" ∧
    (erringProvider.BooleanEvaluation ⟨0⟩ "beta" true aliceCtx (freshWorld ())).world.invocations.length
      = 1 := by
  refine ⟨rfl, rfl, rfl, rfl, ?_, rfl⟩
  decide

/-! ## The unchecked type assertion -/

/-- C9: each of the five evaluations returns a resolution detail exactly when
the targeting-key entry of the context is absent or holds a string; when the
entry holds anything else the call panics with the world untouched: no request
has been handed to the HTTP client and the wrapped provider has not been
invoked. -/
theorem evaluation_returns_iff_key_absent_or_string {σ : Type} (p : Provider σ)
    (ctx : Context) (flag : String) (evalCtx : FlattenedContext) (w : World σ) :
    (∀ d : Bool,
      ((∃ r, (p.BooleanEvaluation ctx flag d evalCtx w).outcome = Outcome.returned r) ↔
          (evalCtx.get TargetingKey = none ∨ ∃ s, evalCtx.get TargetingKey = some (Any.str s))) ∧
        (∀ v, evalCtx.get TargetingKey = some v → (∀ s, v ≠ Any.str s) →
          (p.BooleanEvaluation ctx flag d evalCtx w).outcome = Outcome.panicked ∧ (p.BooleanEvaluation ctx flag d evalCtx w).world = w)) ∧
    (∀ d : Float64,
      ((∃ r, (p.FloatEvaluation ctx flag d evalCtx w).outcome = Outcome.returned r) ↔
          (evalCtx.get TargetingKey = none ∨ ∃ s, evalCtx.get TargetingKey = some (Any.str s))) ∧
        (∀ v, evalCtx.get TargetingKey = some v → (∀ s, v ≠ Any.str s) →
          (p.FloatEvaluation ctx flag d evalCtx w).outcome = Outcome.panicked ∧ (p.FloatEvaluation ctx flag d evalCtx w).world = w)) ∧
    (∀ d : Int,
      ((∃ r, (p.IntEvaluation ctx flag d evalCtx w).outcome = Outcome.returned r) ↔
          (evalCtx.get TargetingKey = none ∨ ∃ s, evalCtx.get TargetingKey = some (Any.str s))) ∧
        (∀ v, evalCtx.get TargetingKey = some v → (∀ s, v ≠ Any.str s) →
          (p.IntEvaluation ctx flag d evalCtx w).outcome = Outcome.panicked ∧ (p.IntEvaluation ctx flag d evalCtx w).world = w)) ∧
    (∀ d : Any,
      ((∃ r, (p.ObjectEvaluation ctx flag d evalCtx w).outcome = Outcome.returned r) ↔
          (evalCtx.get TargetingKey = none ∨ ∃ s, evalCtx.get TargetingKey = some (Any.str s))) ∧
        (∀ v, evalCtx.get TargetingKey = some v → (∀ s, v ≠ Any.str s) →
          (p.ObjectEvaluation ctx flag d evalCtx w).outcome = Outcome.panicked ∧ (p.ObjectEvaluation ctx flag d evalCtx w).world = w)) ∧
    (∀ d : String,
      ((∃ r, (p.StringEvaluation ctx flag d evalCtx w).outcome = Outcome.returned r) ↔
          (evalCtx.get TargetingKey = none ∨ ∃ s, evalCtx.get TargetingKey = some (Any.str s))) ∧
        (∀ v, evalCtx.get TargetingKey = some v → (∀ s, v ≠ Any.str s) →
          (p.StringEvaluation ctx flag d evalCtx w).outcome = Outcome.panicked ∧ (p.StringEvaluation ctx flag d evalCtx w).world = w)) := by
  cases hk : evalCtx.get TargetingKey with
  | none =>
    simp [Provider.BooleanEvaluation, Provider.FloatEvaluation, Provider.IntEvaluation,
      Provider.ObjectEvaluation, Provider.StringEvaluation]
    simp [hk]
  | some v =>
    cases v with
    | str s =>
      rcases hf : p.getIdentityContext s w with ⟨r, w1⟩
      cases r <;>
        simp [Provider.BooleanEvaluation, Provider.FloatEvaluation, Provider.IntEvaluation,
      Provider.ObjectEvaluation, Provider.StringEvaluation, hk, hf, Any.assertString]
    | _ =>
      simp [Provider.BooleanEvaluation, Provider.FloatEvaluation, Provider.IntEvaluation,
      Provider.ObjectEvaluation, Provider.StringEvaluation, hk, Any.assertString]

theorem evaluation_returns_iff_key_absent_or_string_witness :
    (∀ d : Bool,
      ((∃ r, (factsProvider.BooleanEvaluation ⟨0⟩ "beta" d numericKeyCtx (freshWorld ())).outcome = Outcome.returned r) ↔
          (numericKeyCtx.get TargetingKey = none ∨ ∃ s, numericKeyCtx.get TargetingKey = some (Any.str s))) ∧
        (∀ v, numericKeyCtx.get TargetingKey = some v → (∀ s, v ≠ Any.str s) →
          (factsProvider.BooleanEvaluation ⟨0⟩ "beta" d numericKeyCtx (freshWorld ())).outcome = Outcome.panicked ∧ (factsProvider.BooleanEvaluation ⟨0⟩ "beta" d numericKeyCtx (freshWorld ())).world = freshWorld ())) ∧
    (∀ d : Float64,
      ((∃ r, (factsProvider.FloatEvaluation ⟨0⟩ "beta" d numericKeyCtx (freshWorld ())).outcome = Outcome.returned r) ↔
          (numericKeyCtx.get TargetingKey = none ∨ ∃ s, numericKeyCtx.get TargetingKey = some (Any.str s))) ∧
        (∀ v, numericKeyCtx.get TargetingKey = some v → (∀ s, v ≠ Any.str s) →
          (factsProvider.FloatEvaluation ⟨0⟩ "beta" d numericKeyCtx (freshWorld ())).outcome = Outcome.panicked ∧ (factsProvider.FloatEvaluation ⟨0⟩ "beta" d numericKeyCtx (freshWorld ())).world = freshWorld ())) ∧
    (∀ d : Int,
      ((∃ r, (factsProvider.IntEvaluation ⟨0⟩ "beta" d numericKeyCtx (freshWorld ())).outcome = Outcome.returned r) ↔
          (numericKeyCtx.get TargetingKey = none ∨ ∃ s, numericKeyCtx.get TargetingKey = some (Any.str s))) ∧
        (∀ v, numericKeyCtx.get TargetingKey = some v → (∀ s, v ≠ Any.str s) →
          (factsProvider.IntEvaluation ⟨0⟩ "beta" d numericKeyCtx (freshWorld ())).outcome = Outcome.panicked ∧ (factsProvider.IntEvaluation ⟨0⟩ "beta" d numericKeyCtx (freshWorld ())).world = freshWorld ())) ∧
    (∀ d : Any,
      ((∃ r, (factsProvider.ObjectEvaluation ⟨0⟩ "beta" d numericKeyCtx (freshWorld ())).outcome = Outcome.returned r) ↔
          (numericKeyCtx.get TargetingKey = none ∨ ∃ s, numericKeyCtx.get TargetingKey = some (Any.str s))) ∧
        (∀ v, numericKeyCtx.get TargetingKey = some v → (∀ s, v ≠ Any.str s) →
          (factsProvider.ObjectEvaluation ⟨0⟩ "beta" d numericKeyCtx (freshWorld ())).outcome = Outcome.panicked ∧ (factsProvider.ObjectEvaluation ⟨0⟩ "beta" d numericKeyCtx (freshWorld ())).world = freshWorld ())) ∧
    (∀ d : String,
      ((∃ r, (factsProvider.StringEvaluation ⟨0⟩ "beta" d numericKeyCtx (freshWorld ())).outcome = Outcome.returned r) ↔
          (numericKeyCtx.get TargetingKey = none ∨ ∃ s, numericKeyCtx.get TargetingKey = some (Any.str s))) ∧
        (∀ v, numericKeyCtx.get TargetingKey = some v → (∀ s, v ≠ Any.str s) →
          (factsProvider.StringEvaluation ⟨0⟩ "beta" d numericKeyCtx (freshWorld ())).outcome = Outcome.panicked ∧ (factsProvider.StringEvaluation ⟨0⟩ "beta" d numericKeyCtx (freshWorld ())).world = freshWorld ())) :=
  evaluation_returns_iff_key_absent_or_string factsProvider ⟨0⟩ "beta" numericKeyCtx
    (freshWorld ())

/-! ## The caller's map -/

/-- C10: the merge is made in the caller's map.  After each of the five
evaluations the caller's map is unchanged when the targeting key is absent or
the fetch fails, and is the original map overlaid with the fetched facts when
the targeting key is present and the fetch succeeds. -/
theorem evaluation_mutates_caller_map {σ : Type} (p : Provider σ) (ctx : Context)
    (flag : String) (evalCtx : FlattenedContext) (w : World σ) :
    (∀ d : Bool,
      (evalCtx.get TargetingKey = none → (p.BooleanEvaluation ctx flag d evalCtx w).evalCtx = evalCtx) ∧
        (∀ id e w1, evalCtx.get TargetingKey = some (Any.str id) →
          p.getIdentityContext id w = (Except.error e, w1) → (p.BooleanEvaluation ctx flag d evalCtx w).evalCtx = evalCtx) ∧
        (∀ id facts w1, evalCtx.get TargetingKey = some (Any.str id) →
          p.getIdentityContext id w = (Except.ok facts, w1) →
          (p.BooleanEvaluation ctx flag d evalCtx w).evalCtx = injectIdentityContext facts evalCtx ∧
            Overlaid (p.BooleanEvaluation ctx flag d evalCtx w).evalCtx evalCtx facts)) ∧
    (∀ d : Float64,
      (evalCtx.get TargetingKey = none → (p.FloatEvaluation ctx flag d evalCtx w).evalCtx = evalCtx) ∧
        (∀ id e w1, evalCtx.get TargetingKey = some (Any.str id) →
          p.getIdentityContext id w = (Except.error e, w1) → (p.FloatEvaluation ctx flag d evalCtx w).evalCtx = evalCtx) ∧
        (∀ id facts w1, evalCtx.get TargetingKey = some (Any.str id) →
          p.getIdentityContext id w = (Except.ok facts, w1) →
          (p.FloatEvaluation ctx flag d evalCtx w).evalCtx = injectIdentityContext facts evalCtx ∧
            Overlaid (p.FloatEvaluation ctx flag d evalCtx w).evalCtx evalCtx facts)) ∧
    (∀ d : Int,
      (evalCtx.get TargetingKey = none → (p.IntEvaluation ctx flag d evalCtx w).evalCtx = evalCtx) ∧
        (∀ id e w1, evalCtx.get TargetingKey = some (Any.str id) →
          p.getIdentityContext id w = (Except.error e, w1) → (p.IntEvaluation ctx flag d evalCtx w).evalCtx = evalCtx) ∧
        (∀ id facts w1, evalCtx.get TargetingKey = some (Any.str id) →
          p.getIdentityContext id w = (Except.ok facts, w1) →
          (p.IntEvaluation ctx flag d evalCtx w).evalCtx = injectIdentityContext facts evalCtx ∧
            Overlaid (p.IntEvaluation ctx flag d evalCtx w).evalCtx evalCtx facts)) ∧
    (∀ d : Any,
      (evalCtx.get TargetingKey = none → (p.ObjectEvaluation ctx flag d evalCtx w).evalCtx = evalCtx) ∧
        (∀ id e w1, evalCtx.get TargetingKey = some (Any.str id) →
          p.getIdentityContext id w = (Except.error e, w1) → (p.ObjectEvaluation ctx flag d evalCtx w).evalCtx = evalCtx) ∧
        (∀ id facts w1, evalCtx.get TargetingKey = some (Any.str id) →
          p.getIdentityContext id w = (Except.ok facts, w1) →
          (p.ObjectEvaluation ctx flag d evalCtx w).evalCtx = injectIdentityContext facts evalCtx ∧
            Overlaid (p.ObjectEvaluation ctx flag d evalCtx w).evalCtx evalCtx facts)) ∧
    (∀ d : String,
      (evalCtx.get TargetingKey = none → (p.StringEvaluation ctx flag d evalCtx w).evalCtx = evalCtx) ∧
        (∀ id e w1, evalCtx.get TargetingKey = some (Any.str id) →
          p.getIdentityContext id w = (Except.error e, w1) → (p.StringEvaluation ctx flag d evalCtx w).evalCtx = evalCtx) ∧
        (∀ id facts w1, evalCtx.get TargetingKey = some (Any.str id) →
          p.getIdentityContext id w = (Except.ok facts, w1) →
          (p.StringEvaluation ctx flag d evalCtx w).evalCtx = injectIdentityContext facts evalCtx ∧
            Overlaid (p.StringEvaluation ctx flag d evalCtx w).evalCtx evalCtx facts)) := by
  have key : ∀ id facts w1, p.getIdentityContext id w = (Except.ok facts, w1) →
      Overlaid (injectIdentityContext facts evalCtx) evalCtx facts := fun id facts w1 hf k =>
    injectIdentityContext_get facts (getIdentityContext_WF p id w w1 facts hf) evalCtx k
  refine ⟨?_, ?_, ?_, ?_, ?_⟩ <;> intro d <;> refine ⟨?_, ?_, ?_⟩
  all_goals first
    | (intro hk
       simp [Provider.BooleanEvaluation, Provider.FloatEvaluation, Provider.IntEvaluation,
      Provider.ObjectEvaluation, Provider.StringEvaluation, hk])
    | (intro id e w1 hk hf
       simp [Provider.BooleanEvaluation, Provider.FloatEvaluation, Provider.IntEvaluation,
      Provider.ObjectEvaluation, Provider.StringEvaluation, hk, hf, Any.assertString]
       done)
    | (intro id facts w1 hk hf
       have hov := key id facts w1 hf
       simp [Provider.BooleanEvaluation, Provider.FloatEvaluation, Provider.IntEvaluation,
      Provider.ObjectEvaluation, Provider.StringEvaluation, hk, hf, Any.assertString]
       exact hov)

theorem evaluation_mutates_caller_map_witness :
    (∀ d : Bool,
      (aliceCtx.get TargetingKey = none → (factsProvider.BooleanEvaluation ⟨0⟩ "beta" d aliceCtx (freshWorld ())).evalCtx = aliceCtx) ∧
        (∀ id e w1, aliceCtx.get TargetingKey = some (Any.str id) →
          factsProvider.getIdentityContext id (freshWorld ()) = (Except.error e, w1) → (factsProvider.BooleanEvaluation ⟨0⟩ "beta" d aliceCtx (freshWorld ())).evalCtx = aliceCtx) ∧
        (∀ id facts w1, aliceCtx.get TargetingKey = some (Any.str id) →
          factsProvider.getIdentityContext id (freshWorld ()) = (Except.ok facts, w1) →
          (factsProvider.BooleanEvaluation ⟨0⟩ "beta" d aliceCtx (freshWorld ())).evalCtx = injectIdentityContext facts aliceCtx ∧
            Overlaid (factsProvider.BooleanEvaluation ⟨0⟩ "beta" d aliceCtx (freshWorld ())).evalCtx aliceCtx facts)) ∧
    (∀ d : Float64,
      (aliceCtx.get TargetingKey = none → (factsProvider.FloatEvaluation ⟨0⟩ "beta" d aliceCtx (freshWorld ())).evalCtx = aliceCtx) ∧
        (∀ id e w1, aliceCtx.get TargetingKey = some (Any.str id) →
          factsProvider.getIdentityContext id (freshWorld ()) = (Except.error e, w1) → (factsProvider.FloatEvaluation ⟨0⟩ "beta" d aliceCtx (freshWorld ())).evalCtx = aliceCtx) ∧
        (∀ id facts w1, aliceCtx.get TargetingKey = some (Any.str id) →
          factsProvider.getIdentityContext id (freshWorld ()) = (Except.ok facts, w1) →
          (factsProvider.FloatEvaluation ⟨0⟩ "beta" d aliceCtx (freshWorld ())).evalCtx = injectIdentityContext facts aliceCtx ∧
            Overlaid (factsProvider.FloatEvaluation ⟨0⟩ "beta" d aliceCtx (freshWorld ())).evalCtx aliceCtx facts)) ∧
    (∀ d : Int,
      (aliceCtx.get TargetingKey = none → (factsProvider.IntEvaluation ⟨0⟩ "beta" d aliceCtx (freshWorld ())).evalCtx = aliceCtx) ∧
        (∀ id e w1, aliceCtx.get TargetingKey = some (Any.str id) →
          factsProvider.getIdentityContext id (freshWorld ()) = (Except.error e, w1) → (factsProvider.IntEvaluation ⟨0⟩ "beta" d aliceCtx (freshWorld ())).evalCtx = aliceCtx) ∧
        (∀ id facts w1, aliceCtx.get TargetingKey = some (Any.str id) →
          factsProvider.getIdentityContext id (freshWorld ()) = (Except.ok facts, w1) →
          (factsProvider.IntEvaluation ⟨0⟩ "beta" d aliceCtx (freshWorld ())).evalCtx = injectIdentityContext facts aliceCtx ∧
            Overlaid (factsProvider.IntEvaluation ⟨0⟩ "beta" d aliceCtx (freshWorld ())).evalCtx aliceCtx facts)) ∧
    (∀ d : Any,
      (aliceCtx.get TargetingKey = none → (factsProvider.ObjectEvaluation ⟨0⟩ "beta" d aliceCtx (freshWorld ())).evalCtx = aliceCtx) ∧
        (∀ id e w1, aliceCtx.get TargetingKey = some (Any.str id) →
          factsProvider.getIdentityContext id (freshWorld ()) = (Except.error e, w1) → (factsProvider.ObjectEvaluation ⟨0⟩ "beta" d aliceCtx (freshWorld ())).evalCtx = aliceCtx) ∧
        (∀ id facts w1, aliceCtx.get TargetingKey = some (Any.str id) →
          factsProvider.getIdentityContext id (freshWorld ()) = (Except.ok facts, w1) →
          (factsProvider.ObjectEvaluation ⟨0⟩ "beta" d aliceCtx (freshWorld ())).evalCtx = injectIdentityContext facts aliceCtx ∧
            Overlaid (factsProvider.ObjectEvaluation ⟨0⟩ "beta" d aliceCtx (freshWorld ())).evalCtx aliceCtx facts)) ∧
    (∀ d : String,
      (aliceCtx.get TargetingKey = none → (factsProvider.StringEvaluation ⟨0⟩ "beta" d aliceCtx (freshWorld ())).evalCtx = aliceCtx) ∧
        (∀ id e w1, aliceCtx.get TargetingKey = some (Any.str id) →
          factsProvider.getIdentityContext id (freshWorld ()) = (Except.error e, w1) → (factsProvider.StringEvaluation ⟨0⟩ "beta" d aliceCtx (freshWorld ())).evalCtx = aliceCtx) ∧
        (∀ id facts w1, aliceCtx.get TargetingKey = some (Any.str id) →
          factsProvider.getIdentityContext id (freshWorld ()) = (Except.ok facts, w1) →
          (factsProvider.StringEvaluation ⟨0⟩ "beta" d aliceCtx (freshWorld ())).evalCtx = injectIdentityContext facts aliceCtx ∧
            Overlaid (factsProvider.StringEvaluation ⟨0⟩ "beta" d aliceCtx (freshWorld ())).evalCtx aliceCtx facts)) :=
  evaluation_mutates_caller_map factsProvider ⟨0⟩ "beta" aliceCtx (freshWorld ())

/-! ## Writing facts and secrets -/

theorem SetIdentityFact_eq {σ : Type} (p : Provider σ) (ctx : Context) (identity key value : String)
    (w : World σ) :
    p.SetIdentityFact ctx identity key value w =
      ((match (p.httpClient.roundTrip (putRequest p "/fact" identity key value) w.store).1 with
        | Except.error e => some e
        | Except.ok resp => if resp.StatusCode = 200 then none else some (errors_New resp.Status)),
        { store := (p.httpClient.roundTrip (putRequest p "/fact" identity key value) w.store).2,
          requests := w.requests ++ [putRequest p "/fact" identity key value],
          invocations := w.invocations }) := by
  rw [Provider.SetIdentityFact]
  simp only [json_Encode, http_NewRequest, List.map]
  rw [HttpClient.Do_eq]
  unfold putRequest
  generalize p.httpClient.roundTrip _ w.store = rt
  obtain ⟨r, s⟩ := rt
  cases r with
  | error e => rfl
  | ok resp =>
    simp only
    split <;> rfl

theorem SetIdentitySecret_eq {σ : Type} (p : Provider σ) (ctx : Context) (identity key value : String)
    (w : World σ) :
    p.SetIdentitySecret ctx identity key value w =
      ((match (p.httpClient.roundTrip (putRequest p "/secret" identity key value) w.store).1 with
        | Except.error e => some e
        | Except.ok resp => if resp.StatusCode = 200 then none else some (errors_New resp.Status)),
        { store := (p.httpClient.roundTrip (putRequest p "/secret" identity key value) w.store).2,
          requests := w.requests ++ [putRequest p "/secret" identity key value],
          invocations := w.invocations }) := by
  rw [Provider.SetIdentitySecret]
  simp only [json_Encode, http_NewRequest, List.map]
  rw [HttpClient.Do_eq]
  unfold putRequest
  generalize p.httpClient.roundTrip _ w.store = rt
  obtain ⟨r, s⟩ := rt
  cases r with
  | error e => rfl
  | ok resp =>
    simp only
    split <;> rfl

/-- C4: whatever response the PUT receives, `SetIdentityFact` and
`SetIdentitySecret` return no error exactly when its status code is 200, for
any other status code (other 2xx codes included) they return an error whose
message is the status text of the response, and a transport failure is returned
as the error. -/
theorem setIdentity_succeeds_iff_status_200 {σ : Type} (p : Provider σ) (ctx : Context)
    (identity key value : String) (w : World σ) :
    (∀ resp, (p.httpClient.roundTrip (putRequest p "/fact" identity key value) w.store).1 =
        Except.ok resp →
      ((p.SetIdentityFact ctx identity key value w).1 = none ↔ resp.StatusCode = 200) ∧
        (resp.StatusCode ≠ 200 →
          ∃ err, (p.SetIdentityFact ctx identity key value w).1 = some err ∧
            err.msg = resp.Status)) ∧
    (∀ e, (p.httpClient.roundTrip (putRequest p "/fact" identity key value) w.store).1 =
        Except.error e →
      (p.SetIdentityFact ctx identity key value w).1 = some e) ∧
    (∀ resp, (p.httpClient.roundTrip (putRequest p "/secret" identity key value) w.store).1 =
        Except.ok resp →
      ((p.SetIdentitySecret ctx identity key value w).1 = none ↔ resp.StatusCode = 200) ∧
        (resp.StatusCode ≠ 200 →
          ∃ err, (p.SetIdentitySecret ctx identity key value w).1 = some err ∧
            err.msg = resp.Status)) ∧
    (∀ e, (p.httpClient.roundTrip (putRequest p "/secret" identity key value) w.store).1 =
        Except.error e →
      (p.SetIdentitySecret ctx identity key value w).1 = some e) := by
  refine ⟨?_, ?_, ?_, ?_⟩
  · intro resp h
    rw [SetIdentityFact_eq, h]
    by_cases hs : resp.StatusCode = 200 <;> simp [hs, errors_New]
  · intro e h
    rw [SetIdentityFact_eq, h]
  · intro resp h
    rw [SetIdentitySecret_eq, h]
    by_cases hs : resp.StatusCode = 200 <;> simp [hs, errors_New]
  · intro e h
    rw [SetIdentitySecret_eq, h]

theorem setIdentity_succeeds_iff_status_200_witness :
    (forbiddenProvider.httpClient.roundTrip
      (putRequest forbiddenProvider "/fact" "alice" "plan" "pro") (freshWorld ()).store).1 =
        Except.ok forbiddenResponse ∧
    forbiddenResponse.StatusCode ≠ 200 ∧
    ∃ err, (forbiddenProvider.SetIdentityFact ⟨0⟩ "alice" "plan" "pro" (freshWorld ())).1 =
        some err ∧
      err.msg = "403 Forbidden" :=
  ⟨rfl, by decide,
    ((setIdentity_succeeds_iff_status_200 forbiddenProvider ⟨0⟩ "alice" "plan" "pro"
      (freshWorld ())).1 forbiddenResponse rfl).2 (by decide)⟩

/-! ## Construction -/

theorem cutChar_not_mem (sep : Char) (s : List Char) (h : sep ∉ s) :
    cutChar sep s = (s, [], false) := by
  induction s with
  | nil => rfl
  | cons c cs ih =>
    simp only [List.mem_cons, not_or] at h
    have hc : ¬ c = sep := fun e => h.1 e.symm
    simp [cutChar, hc, ih h.2]

theorem getSchemeFrom_no_colon (rawURL seen rest : List Char) (h : ':' ∉ rest) :
    getSchemeFrom rawURL seen rest = Except.ok ([], rawURL) := by
  induction rest generalizing seen with
  | nil => rfl
  | cons c cs ih =>
    simp only [List.mem_cons, not_or] at h
    have hc : ¬ c = ':' := fun e => h.1 e.symm
    unfold getSchemeFrom
    split
    · exact ih _ h.2
    · split
      · split
        · rfl
        · exact ih _ h.2
      · simp [hc]

theorem unescapeError_path_no_percent (s : List Char) (h : '%' ∉ s) :
    unescapeError Encoding.encodePath s = none := by
  induction s with
  | nil => rfl
  | cons c cs ih =>
    simp only [List.mem_cons, not_or] at h
    have hc : ¬ c = '%' := fun e => h.1 e.symm
    unfold unescapeError
    split
    all_goals first
      | (rename_i heq
         injection heq with e1 e2
         exact absurd e1 hc)
      | (rename_i heq
         injection heq with e1 e2
         subst e1
         subst e2
         simp [ih h.2])
      | simp [ih h.2]

/-- The leniency of `url.Parse`: a string without control characters and
without `:`, `#`, `?` and `%` that does not start with `//` is accepted, as a
path. -/
theorem url_Parse_path (raw : String) (hctl : stringContainsCTLByte raw.data = false)
    (hchars : ∀ c ∈ raw.data, c ≠ ':' ∧ c ≠ '#' ∧ c ≠ '?' ∧ c ≠ '%')
    (hslash : ['/', '/'].isPrefixOf raw.data = false) :
    url_Parse raw = Except.ok { Path := raw } := by
  have hcolon : ':' ∉ raw.data := fun hm => (hchars _ hm).1 rfl
  have hhash : '#' ∉ raw.data := fun hm => (hchars _ hm).2.1 rfl
  have hquery : '?' ∉ raw.data := fun hm => (hchars _ hm).2.2.1 rfl
  have hpct : '%' ∉ raw.data := fun hm => (hchars _ hm).2.2.2 rfl
  by_cases hstar : raw.data = ['*']
  · have hraw : raw = "*" := String.ext hstar
    subst hraw
    rfl
  have hlast : raw.data.getLast? ≠ some '?' := fun h =>
    hquery (List.mem_of_getLast?_eq_some h)
  have hseg : ':' ∉ (cutChar '/' raw.data).1 := by
    intro hm
    have hsub : ∀ (l : List Char), ∀ c ∈ (cutChar '/' l).1, c ∈ l := by
      intro l
      induction l with
      | nil => intro c hc; simp [cutChar] at hc
      | cons d ds ihd =>
        intro c hc
        by_cases hd : d = '/'
        · simp [cutChar, hd] at hc
        · simp only [cutChar, hd, if_false, List.mem_cons] at hc ⊢
          rcases hc with h | h
          · exact Or.inl h
          · exact Or.inr (ihd c h)
    exact hcolon (hsub _ _ hm)
  have hslash' : ¬ ['/', '/'] <+: raw.data := by
    intro hp
    have := List.isPrefixOf_iff_prefix.2 hp
    rw [hslash] at this
    cases this
  simp [url_Parse, url_parse, cutChar_not_mem '#' raw.data hhash, hctl, hstar, getScheme,
    getSchemeFrom_no_colon raw.data [] raw.data hcolon, cutChar_not_mem '?' raw.data hquery,
    hlast, hseg, hslash', unescapeError_path_no_percent raw.data hpct]

theorem url_Parse_control_character (raw : String)
    (h : stringContainsCTLByte (cutChar '#' raw.data).1 = true) :
    url_Parse raw = Except.error (url_Error "parse" (String.mk (cutChar '#' raw.data).1)
      ⟨"net/url: invalid control character in URL"⟩) := by
  simp [url_Parse, url_parse, h]

theorem url_Parse_leading_colon (raw : String) (h : raw.data.head? = some ':') :
    ∃ err, url_Parse raw = Except.error err := by
  by_cases hctl : stringContainsCTLByte (cutChar '#' raw.data).1 = true
  · exact ⟨_, url_Parse_control_character raw hctl⟩
  · cases hd : raw.data with
    | nil => rw [hd] at h; cases h
    | cons c cs =>
      rw [hd] at h hctl
      simp only [List.head?_cons, Option.some.injEq] at h
      subst h
      have hcut : (cutChar '#' (':' :: cs)).1 = ':' :: (cutChar '#' cs).1 := by
        simp [cutChar]
      rw [hcut] at hctl
      refine ⟨url_Error "parse" (String.mk (':' :: (cutChar '#' cs).1))
        ⟨"missing protocol scheme"⟩, ?_⟩
      simp [url_Parse, url_parse, hd, hcut, hctl, getScheme, getSchemeFrom]

/-- C6, as the code has it: `NewProvider` fails exactly when `url.Parse`
rejects the base URL string, with the error of `url.Parse`, and otherwise
returns a provider that holds the parsed base URL, the given wrapped provider
and the HTTP client.  The parser rejects a string with a control character
before its fragment and a string that begins with a colon; it accepts, as a
path, every string without control characters and without `:`, `#`, `?` and
`%` that does not start with `//`, whether or not the string is a valid
URL. -/
theorem NewProvider_fails_iff_parse_fails {σ : Type} (client : HttpClient σ)
    (rawBaseURL : String) (featureProvider : FeatureProvider) :
    (∀ err, url_Parse rawBaseURL = Except.error err →
      NewProvider client rawBaseURL featureProvider = Except.error err) ∧
    (∀ baseURL, url_Parse rawBaseURL = Except.ok baseURL →
      NewProvider client rawBaseURL featureProvider =
        Except.ok { httpClient := client, baseURL := baseURL,
                    featureProvider := featureProvider }) ∧
    (stringContainsCTLByte (cutChar '#' rawBaseURL.data).1 = true →
      ∃ err, NewProvider client rawBaseURL featureProvider = Except.error err) ∧
    (rawBaseURL.data.head? = some ':' →
      ∃ err, NewProvider client rawBaseURL featureProvider = Except.error err) ∧
    (stringContainsCTLByte rawBaseURL.data = false →
      (∀ c ∈ rawBaseURL.data, c ≠ ':' ∧ c ≠ '#' ∧ c ≠ '?' ∧ c ≠ '%') →
      ['/', '/'].isPrefixOf rawBaseURL.data = false →
      NewProvider client rawBaseURL featureProvider =
        Except.ok { httpClient := client, baseURL := { Path := rawBaseURL },
                    featureProvider := featureProvider }) := by
  have hfail : ∀ err, url_Parse rawBaseURL = Except.error err →
      NewProvider client rawBaseURL featureProvider = Except.error err := by
    intro err h
    simp [NewProvider, h]
  refine ⟨hfail, ?_, ?_, ?_, ?_⟩
  · intro baseURL h
    simp [NewProvider, h]
  · intro h
    exact ⟨_, hfail _ (url_Parse_control_character rawBaseURL h)⟩
  · intro h
    obtain ⟨err, herr⟩ := url_Parse_leading_colon rawBaseURL h
    exact ⟨err, hfail err herr⟩
  · intro hctl hchars hslash
    simp [NewProvider, url_Parse_path rawBaseURL hctl hchars hslash]

theorem NewProvider_fails_iff_parse_fails_witness :
    url_Parse "http://store" = Except.ok sampleURL ∧
    NewProvider unreachableStore "http://store" staticProvider =
      Except.ok { httpClient := unreachableStore, baseURL := sampleURL,
                  featureProvider := staticProvider } ∧
    url_Parse "::" = Except.error ⟨"parse \"::\": missing protocol scheme"⟩ ∧
    NewProvider unreachableStore "::" staticProvider =
      Except.error ⟨"parse \"::\": missing protocol scheme"⟩ :=
  ⟨rfl,
    (NewProvider_fails_iff_parse_fails unreachableStore "http://store" staticProvider).2.1
      sampleURL rfl,
    rfl,
    (NewProvider_fails_iff_parse_fails unreachableStore "::" staticProvider).1 _ rfl⟩

/-- C6 as stated fails: the string `not a url` holds spaces, which no URL may
hold, yet `url.Parse` accepts it as a path and `NewProvider` returns a
provider. -/
theorem NewProvider_accepts_invalid_URL_counterexample :
    ¬ URLCharactersOnly "not a url" ∧
    NewProvider unreachableStore "not a url" staticProvider =
      Except.ok { httpClient := unreachableStore, baseURL := { Path := "not a url" },
                  featureProvider := staticProvider } := by
  refine ⟨?_, rfl⟩
  intro h
  have := h ' ' (by decide)
  revert this
  decide

/-! ## Reading facts -/

theorem decodeMembers_cons_fst (k0 : String) (v : Json) (rest : List (String × Json))
    (m : GoMap String) (saved : Option Error) :
    ∃ saved', (decodeMembers ((k0, v) :: rest) m saved).1 =
      (decodeMembers rest (m.set k0 (memberString v)) saved').1 := by
  cases v <;> exact ⟨_, rfl⟩

theorem decodeMembers_get (members : List (String × Json)) (m : GoMap String)
    (saved : Option Error) (k : String) :
    (decodeMembers members m saved).1.get k =
      match lastMember members k with
      | some v => some (memberString v)
      | none => m.get k := by
  induction members generalizing m saved with
  | nil => rfl
  | cons e rest ih =>
    obtain ⟨k0, v⟩ := e
    obtain ⟨saved', hs⟩ := decodeMembers_cons_fst k0 v rest m saved
    rw [hs, ih]
    simp only [lastMember]
    cases lastMember rest k with
    | some v' => rfl
    | none =>
      by_cases hk : k0 = k
      · simp [hk, GoMap.get_set]
      · simp [hk, GoMap.get_set]

theorem decodeMembers_snd (members : List (String × Json)) (m : GoMap String)
    (saved : Option Error) :
    (decodeMembers members m saved).2 = none ↔
      saved = none ∧ ∀ kv ∈ members, StringOrNull kv.2 := by
  induction members generalizing m saved with
  | nil => simp [decodeMembers]
  | cons e rest ih =>
    obtain ⟨k0, v⟩ := e
    cases v <;> simp only [decodeMembers] <;> rw [ih] <;> cases saved <;>
      simp [StringOrNull, Option.orElse]

theorem json_Decode_error_iff (body : Body) :
    (∃ e, json_Decode body [] = Except.error e) ↔ ¬ DecodesToStringMap body := by
  unfold DecodesToStringMap
  cases body with
  | invalid err => simp [json_Decode]
  | json v =>
    cases v with
    | obj members =>
      have h := decodeMembers_snd members [] none
      rcases hd : decodeMembers members [] none with ⟨m, saved⟩
      rw [hd] at h
      simp only [true_and] at h
      cases saved with
      | none =>
        have h' := h.1 rfl
        simp only [json_Decode, hd, Body.json.injEq, Json.obj.injEq, exists_eq_left']
        constructor
        · rintro ⟨e, he⟩
          cases he
        · intro hn
          exact absurd (Or.inr h') hn
      | some err =>
        have h' : ¬ ∀ kv ∈ members, StringOrNull kv.2 := fun hall => by
          have := h.2 hall
          cases this
        simp only [json_Decode, hd, Except.error.injEq, exists_eq', Body.json.injEq,
          Json.obj.injEq, exists_eq_left', true_iff, not_or]
        exact ⟨by simp, h'⟩
    | _ => simp [json_Decode]

theorem json_Decode_object (members : List (String × Json))
    (h : ∀ kv ∈ members, StringOrNull kv.2) :
    ∃ m, json_Decode (Body.json (Json.obj members)) [] = Except.ok m ∧
      ∀ k, m.get k = (lastMember members k).map memberString := by
  have hs := (decodeMembers_snd members [] none).2 ⟨rfl, h⟩
  have hg := decodeMembers_get members [] none
  rcases hd : decodeMembers members [] none with ⟨m, saved⟩
  rw [hd] at hs hg
  simp only at hs hg
  subst hs
  refine ⟨m, by simp [json_Decode, hd], fun k => ?_⟩
  rw [hg k]
  cases lastMember members k <;> rfl

/-- C5, as the code has it: `GetIdentityFacts` is the same fetch as
`getIdentityContext`.  A transport failure is returned as the error.  When a
response arrives, an error is returned exactly when the decoder does not accept
its body for a map of strings, that is unless the body is `null` or an object
whose member values are strings or `null`.  The body `null` gives the empty
mapping; an accepted object gives the mapping whose entries are the members of
the object (the last one of a repeated name, a `null` read as the empty
string); the body `{"plan":"pro","region":"eu"}` gives exactly the two entries
plan->pro and region->eu. -/
theorem GetIdentityFacts_result {σ : Type} (p : Provider σ) (ctx : Context)
    (identity : String) (w : World σ) :
    p.GetIdentityFacts ctx identity w = p.getIdentityContext identity w ∧
    (∀ e, (p.httpClient.roundTrip (factsRequest p identity) w.store).1 = Except.error e →
      (p.GetIdentityFacts ctx identity w).1 = Except.error e) ∧
    (∀ resp, (p.httpClient.roundTrip (factsRequest p identity) w.store).1 = Except.ok resp →
      ((∃ e, (p.GetIdentityFacts ctx identity w).1 = Except.error e) ↔
          ¬ DecodesToStringMap resp.Body) ∧
        (resp.Body = Body.json Json.null → (p.GetIdentityFacts ctx identity w).1 = Except.ok []) ∧
        (∀ members, resp.Body = Body.json (Json.obj members) →
          (∀ kv ∈ members, StringOrNull kv.2) →
          ∃ m, (p.GetIdentityFacts ctx identity w).1 = Except.ok m ∧
            ∀ k, m.get k = (lastMember members k).map memberString) ∧
        (resp.Body = Body.json (Json.obj [("plan", Json.str "pro"), ("region", Json.str "eu")]) →
          (p.GetIdentityFacts ctx identity w).1 =
            Except.ok [("plan", "pro"), ("region", "eu")])) := by
  have hsame : p.GetIdentityFacts ctx identity w = p.getIdentityContext identity w := rfl
  refine ⟨hsame, ?_, ?_⟩
  · intro e h
    rw [hsame, getIdentityContext_eq, h]
  · intro resp h
    have hres : (p.GetIdentityFacts ctx identity w).1 = json_Decode resp.Body [] := by
      rw [hsame, getIdentityContext_eq, h]
    rw [hres]
    refine ⟨json_Decode_error_iff resp.Body, ?_, ?_, ?_⟩
    · intro hb
      rw [hb]
      rfl
    · intro members hb hall
      rw [hb]
      exact json_Decode_object members hall
    · intro hb
      rw [hb]
      rfl

theorem GetIdentityFacts_result_witness :
    (factsProvider.httpClient.roundTrip (factsRequest factsProvider "alice")
      (freshWorld ()).store).1 = Except.ok factsResponse ∧
    factsResponse.Body =
      Body.json (Json.obj [("plan", Json.str "pro"), ("region", Json.str "eu")]) ∧
    (factsProvider.GetIdentityFacts ⟨0⟩ "alice" (freshWorld ())).1 =
      Except.ok [("plan", "pro"), ("region", "eu")] :=
  ⟨rfl, rfl,
    ((GetIdentityFacts_result factsProvider ⟨0⟩ "alice" (freshWorld ())).2.2
      factsResponse rfl).2.2.2 rfl⟩

/-- C5 as stated fails: the transport does not fail and the body `null` is not
a JSON object, yet `GetIdentityFacts` returns no error; it returns the empty
mapping. -/
theorem GetIdentityFacts_null_body_counterexample :
    (nullProvider.httpClient.roundTrip (factsRequest nullProvider "alice")
      (freshWorld ()).store).1 = Except.ok nullResponse ∧
    ¬ IsStringObject nullResponse.Body ∧
    (nullProvider.GetIdentityFacts ⟨0⟩ "alice" (freshWorld ())).1 = Except.ok [] := by
  refine ⟨rfl, ?_, rfl⟩
  rintro ⟨members, h, -⟩
  cases h

/-! ## Joining paths -/

theorem splitSlash_noslash (seg : List Char) (h : '/' ∉ seg) : splitSlash seg = [seg] := by
  induction seg with
  | nil => rfl
  | cons c cs ih =>
    simp only [List.mem_cons, not_or] at h
    have hc : ¬ c = '/' := fun e => h.1 e.symm
    simp [splitSlash, hc, ih h.2]

theorem splitSlash_append (seg r : List Char) (h : '/' ∉ seg) :
    splitSlash (seg ++ '/' :: r) = seg :: splitSlash r := by
  induction seg with
  | nil => simp [splitSlash]
  | cons c cs ih =>
    simp only [List.mem_cons, not_or] at h
    have hc : ¬ c = '/' := fun e => h.1 e.symm
    simp [splitSlash, hc, ih h.2]

/-- Splitting undoes joining when no part contains a slash. -/
theorem splitSlash_joinSlash (parts : List (List Char)) (hne : parts ≠ [])
    (h : ∀ s ∈ parts, '/' ∉ s) : splitSlash (joinSlash parts) = parts := by
  induction parts with
  | nil => exact absurd rfl hne
  | cons s rest ih =>
    cases rest with
    | nil => exact splitSlash_noslash s (h s (List.mem_cons_self _ _))
    | cons s' rest' =>
      have hj : joinSlash (s :: s' :: rest') = s ++ '/' :: joinSlash (s' :: rest') := rfl
      rw [hj, splitSlash_append s _ (h s (List.mem_cons_self _ _)),
        ih (List.cons_ne_nil _ _) (fun x hx => h x (List.mem_cons_of_mem _ hx))]

theorem joinSlash_append (a b : List (List Char)) (ha : a ≠ []) (hb : b ≠ []) :
    joinSlash (a ++ b) = joinSlash a ++ '/' :: joinSlash b := by
  induction a with
  | nil => exact absurd rfl ha
  | cons s rest ih =>
    cases rest with
    | nil =>
      cases b with
      | nil => exact absurd rfl hb
      | cons t b' => rfl
    | cons s' rest' =>
      have h1 : joinSlash (s :: s' :: rest' ++ b) = s ++ '/' :: joinSlash (s' :: rest' ++ b) := rfl
      have h2 : joinSlash (s :: s' :: rest') = s ++ '/' :: joinSlash (s' :: rest') := rfl
      rw [h1, h2, ih (List.cons_ne_nil _ _)]
      simp

theorem foldl_cleanStep_kept (rooted : Bool) (out segs : List (List Char))
    (h : ∀ s ∈ segs, s = [] ∨ KeptSegment s) :
    segs.foldl (cleanStep rooted) out = out ++ segs.filter (fun s => s ≠ []) := by
  induction segs generalizing out with
  | nil => simp
  | cons s rest ih =>
    have hrest : ∀ x ∈ rest, x = [] ∨ KeptSegment x := fun x hx => h x (List.mem_cons_of_mem _ hx)
    rcases h s (List.mem_cons_self _ _) with he | hk
    · subst he
      simp [cleanStep, ih _ hrest]
    · obtain ⟨h1, h2, h3⟩ := hk
      simp [cleanStep, h1, h2, h3, ih _ hrest]

/-- Cleaning a rooted path whose segments are empty or kept: the empty
segments go, the others stay in order. -/
theorem cleanChars_rooted (q : List Char) (rest : List (List Char))
    (hslash : ∀ s ∈ q :: rest, '/' ∉ s) (h : ∀ s ∈ q :: rest, s = [] ∨ KeptSegment s) :
    cleanChars (joinSlash ([] :: q :: rest)) =
      '/' :: joinSlash ((q :: rest).filter (fun s => s ≠ [])) := by
  have hj : joinSlash ([] :: q :: rest) = '/' :: joinSlash (q :: rest) := rfl
  have hsplit : splitSlash (joinSlash ([] :: q :: rest)) = [] :: q :: rest := by
    apply splitSlash_joinSlash _ (List.cons_ne_nil _ _)
    intro s hs
    rcases List.mem_cons.1 hs with he | hm
    · subst he
      simp
    · exact hslash s hm
  have hall : ∀ s ∈ ([] : List Char) :: q :: rest, s = [] ∨ KeptSegment s := by
    intro s hs
    rcases List.mem_cons.1 hs with he | hm
    · exact Or.inl he
    · exact h s hm
  have hfold := foldl_cleanStep_kept true [] _ hall
  simp only [cleanChars, hsplit]
  simp only [hj, List.head?_cons, decide_True, hfold]
  simp

theorem PlainSegment.data_ne_nil {s : String} (h : PlainSegment s) : s.data ≠ [] := by
  intro h'
  exact h.1 (String.ext (by simpa using h'))

theorem PlainSegment.noslash {s : String} (h : PlainSegment s) : '/' ∉ s.data := by
  intro hm
  have := h.2.2.2 '/' hm
  revert this
  decide

theorem PlainSegment.kept {s : String} (h : PlainSegment s) : KeptSegment s.data := by
  refine ⟨h.data_ne_nil, ?_, ?_⟩
  · intro h'
    exact h.2.1 (String.ext (by simpa using h'))
  · intro h'
    exact h.2.2.1 (String.ext (by simpa using h'))

theorem PlainSegment.getLast {s : String} (h : PlainSegment s) :
    s.data.getLast? ≠ some '/' := fun hl => h.noslash (List.mem_of_getLast?_eq_some hl)

theorem pathOf_append (a b : List String) : pathOf (a ++ b) = pathOf a ++ pathOf b := by
  induction a with
  | nil => exact String.ext (by simp [pathOf])
  | cons s rest ih => exact String.ext (by simp [pathOf, ih])

theorem pathOf_data (seg : String) (rest : List String) :
    (pathOf (seg :: rest)).data = '/' :: joinSlash ((seg :: rest).map String.data) := by
  induction rest generalizing seg with
  | nil => simp [pathOf, joinSlash]
  | cons s' rest' ih =>
    have h1 : pathOf (seg :: s' :: rest') = "/" ++ seg ++ pathOf (s' :: rest') := rfl
    rw [h1, String.data_append, ih]
    simp [joinSlash]

theorem joinSlash_slash_cons (s : List Char) (r : List (List Char)) :
    joinSlash (('/' :: s) :: r) = joinSlash ([] :: s :: r) := by
  cases r <;> rfl

theorem path_Join_nonempty (elems : List String) (hne : elems ≠ [])
    (h : ∀ e ∈ elems, e.data ≠ []) :
    path_Join elems = String.mk (cleanChars (joinSlash (elems.map String.data))) := by
  have hf : (elems.map String.data).filter (fun e => e ≠ []) = elems.map String.data := by
    rw [List.filter_eq_self]
    intro a ha
    obtain ⟨e, he, rfl⟩ := List.mem_map.1 ha
    simpa using h e he
  have hn : elems.map String.data ≠ [] := by simpa using hne
  simp only [path_Join, hf, hn, if_false, path_Clean]

theorem PlainSegment.noquery {s : String} (h : PlainSegment s) : '?' ∉ s.data := by
  intro hm
  have := h.2.2.2 '?' hm
  revert this
  decide

theorem PlainSegment.nohash {s : String} (h : PlainSegment s) : '#' ∉ s.data := by
  intro hm
  have := h.2.2.2 '#' hm
  revert this
  decide

theorem PlainSegment.nopercent {s : String} (h : PlainSegment s) : '%' ∉ s.data := by
  intro hm
  have := h.2.2.2 '%' hm
  revert this
  decide

theorem mem_pathOf (segs : List String) (c : Char) (h : c ∈ (pathOf segs).data) :
    c = '/' ∨ ∃ s ∈ segs, c ∈ s.data := by
  induction segs with
  | nil => simp [pathOf] at h
  | cons s rest ih =>
    simp only [pathOf, String.data_append, List.mem_append] at h
    rcases h with (h | h) | h
    · left
      have : c ∈ ['/'] := h
      simpa using this
    · exact Or.inr ⟨s, List.mem_cons_self _ _, h⟩
    · rcases ih h with h' | ⟨t, ht, hc⟩
      · exact Or.inl h'
      · exact Or.inr ⟨t, List.mem_cons_of_mem _ ht, hc⟩

theorem getLast_noslash (x : String) (s1 : String) (ss : List String) (h1 : PlainSegment s1)
    (hs : ∀ s ∈ ss, PlainSegment s) :
    ((x :: ("/" ++ s1) :: ss).getLast (List.cons_ne_nil _ _)).data.getLast? ≠ some '/' := by
  have hmem : (x :: ("/" ++ s1) :: ss).getLast (List.cons_ne_nil _ _) ∈ ("/" ++ s1) :: ss := by
    rw [List.getLast_cons (List.cons_ne_nil _ _)]
    exact List.getLast_mem _
  rcases List.mem_cons.1 hmem with he | hm
  · rw [he]
    intro hl
    have hin : '/' ∈ ("/" ++ s1).data := List.mem_of_getLast?_eq_some hl
    obtain ⟨ys, hys⟩ := List.getLast?_eq_some_iff.1 hl
    have hd : ("/" ++ s1).data = '/' :: s1.data := by simp
    rw [hd] at hys
    cases ys with
    | nil =>
      simp only [List.nil_append, List.cons.injEq, true_and] at hys
      exact h1.data_ne_nil hys
    | cons y ys' =>
      simp only [List.cons_append, List.cons.injEq] at hys
      exact h1.noslash (by rw [hys.2]; simp)
  · exact (hs _ hm).getLast

/-- The path `JoinPath` computes from a base path made of plain segments and
elements that are plain segments, the first one written with a leading
slash. -/
theorem joinedPath_eq (base : URL) (bsegs : List String) (hpath : base.Path = pathOf bsegs)
    (hb : ∀ s ∈ bsegs, PlainSegment s) (s1 : String) (ss : List String)
    (h1 : PlainSegment s1) (hs : ∀ s ∈ ss, PlainSegment s) :
    base.joinedPath (("/" ++ s1) :: ss) =
      if bsegs = [] then String.mk (joinSlash ((s1 :: ss).map String.data))
      else pathOf (bsegs ++ s1 :: ss) := by
  have hS : ∀ s ∈ (s1 :: ss).map String.data, '/' ∉ s ∧ (s = [] ∨ KeptSegment s) := by
    intro s hm
    obtain ⟨e, he, rfl⟩ := List.mem_map.1 hm
    have hp : PlainSegment e := by
      rcases List.mem_cons.1 he with h | h
      · exact h ▸ h1
      · exact hs e h
    exact ⟨hp.noslash, Or.inr hp.kept⟩
  have hSne : ∀ s ∈ (s1 :: ss).map String.data, s ≠ [] := by
    intro s hm
    obtain ⟨e, he, rfl⟩ := List.mem_map.1 hm
    rcases List.mem_cons.1 he with h | h
    · exact h ▸ h1.data_ne_nil
    · exact (hs e h).data_ne_nil
  have hfilterS : ((s1 :: ss).map String.data).filter (fun s => s ≠ []) =
      (s1 :: ss).map String.data := by
    rw [List.filter_eq_self]
    intro a ha
    simpa using hSne a ha
  cases bsegs with
  | nil =>
    have hp : base.Path = "" := hpath
    have hlast := getLast_noslash ("/" ++ base.Path) s1 ss h1 hs
    have hjoin : path_Join (("/" ++ base.Path) :: ("/" ++ s1) :: ss) =
        String.mk ('/' :: joinSlash ((s1 :: ss).map String.data)) := by
      rw [path_Join_nonempty _ (List.cons_ne_nil _ _)]
      · have hx : joinSlash ((("/" ++ base.Path) :: ("/" ++ s1) :: ss).map String.data) =
            joinSlash ([] :: [] :: [] :: (s1 :: ss).map String.data) := by
          simp only [List.map_cons, String.data_append, hp]
          show joinSlash (('/' :: []) :: ('/' :: s1.data) :: ss.map String.data) = _
          rw [joinSlash_slash_cons]
          show '/' :: joinSlash ([] :: ('/' :: s1.data) :: ss.map String.data) = _
          show '/' :: '/' :: joinSlash (('/' :: s1.data) :: ss.map String.data) = _
          rw [joinSlash_slash_cons]
          rfl
        rw [hx, cleanChars_rooted]
        · have hf : ([] :: [] :: (s1 :: ss).map String.data).filter (fun s => s ≠ []) =
              (s1 :: ss).map String.data := by
            simp only [List.filter_cons, ne_eq, not_true_eq_false, decide_False]
            exact hfilterS
          rw [hf]
        · intro s hm
          rcases List.mem_cons.1 hm with h | hm
          · subst h; simp
          rcases List.mem_cons.1 hm with h | hm
          · subst h; simp
          exact (hS s hm).1
        · intro s hm
          rcases List.mem_cons.1 hm with h | hm
          · exact Or.inl h
          rcases List.mem_cons.1 hm with h | hm
          · exact Or.inl h
          exact (hS s hm).2
      · intro e he
        rcases List.mem_cons.1 he with h | he
        · subst h; simp
        rcases List.mem_cons.1 he with h | he
        · subst h; simp
        exact (hs e he).data_ne_nil
    have hrel : (decide (base.Path.data.head? ≠ some '/')) = true := by
      rw [hp]; decide
    simp only [URL.joinedPath, URL.EscapedPath, hrel, if_true, hjoin]
    rw [if_neg (fun hc => hlast hc.1)]
    simp
  | cons b1 bs =>
    have hpd : base.Path.data = '/' :: joinSlash ((b1 :: bs).map String.data) := by
      rw [hpath, pathOf_data]
    have hlast := getLast_noslash base.Path s1 ss h1 hs
    have hB : ∀ s ∈ (b1 :: bs).map String.data, '/' ∉ s ∧ (s = [] ∨ KeptSegment s) ∧ s ≠ [] := by
      intro s hm
      obtain ⟨e, he, rfl⟩ := List.mem_map.1 hm
      exact ⟨(hb e he).noslash, Or.inr (hb e he).kept, (hb e he).data_ne_nil⟩
    have hjoin : path_Join (base.Path :: ("/" ++ s1) :: ss) =
        pathOf ((b1 :: bs) ++ s1 :: ss) := by
      rw [path_Join_nonempty _ (List.cons_ne_nil _ _)]
      · have hx : joinSlash ((base.Path :: ("/" ++ s1) :: ss).map String.data) =
            joinSlash ([] :: b1.data :: (bs.map String.data ++ [] :: (s1 :: ss).map String.data))
            := by
          simp only [List.map_cons, String.data_append, hpd]
          show ('/' :: joinSlash (b1.data :: bs.map String.data)) ++
            '/' :: joinSlash (('/' :: s1.data) :: ss.map String.data) = _
          rw [joinSlash_slash_cons]
          show _ = '/' :: joinSlash ((b1.data :: bs.map String.data) ++
            ([] :: s1.data :: ss.map String.data))
          rw [joinSlash_append _ _ (List.cons_ne_nil _ _) (List.cons_ne_nil _ _)]
          rfl
        rw [hx, cleanChars_rooted]
        · apply String.ext
          have hf : (b1.data :: (bs.map String.data ++ [] :: (s1 :: ss).map String.data)).filter
              (fun s => s ≠ []) = ((b1 :: bs) ++ s1 :: ss).map String.data := by
            have hfB : ((b1 :: bs).map String.data).filter (fun s => s ≠ []) =
                (b1 :: bs).map String.data := by
              rw [List.filter_eq_self]
              intro a ha
              simpa using (hB a ha).2.2
            have : b1.data :: (bs.map String.data ++ [] :: (s1 :: ss).map String.data) =
                (b1 :: bs).map String.data ++ [] :: (s1 :: ss).map String.data := rfl
            rw [this, List.filter_append, hfB]
            simp only [List.filter_cons, ne_eq, not_true_eq_false, decide_False]
            rw [hfilterS]
            simp
          rw [hf]
          show _ = (pathOf (b1 :: (bs ++ s1 :: ss))).data
          rw [pathOf_data]
          rfl
        · intro s hm
          rcases List.mem_cons.1 hm with h | hm
          · subst h; exact (hB _ (List.mem_cons_self _ _)).1
          rcases List.mem_append.1 hm with hm | hm
          · exact (hB s (List.mem_cons_of_mem _ hm)).1
          rcases List.mem_cons.1 hm with h | hm
          · subst h; simp
          exact (hS s hm).1
        · intro s hm
          rcases List.mem_cons.1 hm with h | hm
          · subst h; exact (hB _ (List.mem_cons_self _ _)).2.1
          rcases List.mem_append.1 hm with hm | hm
          · exact (hB s (List.mem_cons_of_mem _ hm)).2.1
          rcases List.mem_cons.1 hm with h | hm
          · exact Or.inl h
          exact (hS s hm).2
      · intro e he
        rcases List.mem_cons.1 he with h | he
        · subst h; rw [hpd]; simp
        rcases List.mem_cons.1 he with h | he
        · subst h; simp
        exact (hs e he).data_ne_nil
    have hrel : (decide (base.Path.data.head? ≠ some '/')) = false := by
      rw [hpd]; simp
    simp only [URL.joinedPath, URL.EscapedPath, hrel]
    rw [if_neg (fun hc => hlast hc.1)]
    simpa using hjoin

theorem JoinPath_fields (u : URL) (elem : List String) :
    (u.JoinPath elem).Host = u.Host ∧ (u.JoinPath elem).Opaque = u.Opaque ∧
      (u.JoinPath elem).origin = u.origin ∧ (u.JoinPath elem).suffix = u.suffix := by
  unfold URL.JoinPath
  split <;> exact ⟨rfl, rfl, rfl, rfl⟩

/-- The path after `JoinPath`, for a base path made of plain segments and
elements that are plain segments: no percent sign occurs, so the joined path is
set. -/
theorem JoinPath_path (base : URL) (bsegs : List String) (hpath : base.Path = pathOf bsegs)
    (hb : ∀ s ∈ bsegs, PlainSegment s) (s1 : String) (ss : List String)
    (h1 : PlainSegment s1) (hs : ∀ s ∈ ss, PlainSegment s) :
    (base.JoinPath (("/" ++ s1) :: ss)).Path =
      if bsegs = [] then String.mk (joinSlash ((s1 :: ss).map String.data))
      else pathOf (bsegs ++ s1 :: ss) := by
  have hj := joinedPath_eq base bsegs hpath hb s1 ss h1 hs
  have hall : ∀ s ∈ bsegs ++ s1 :: ss, PlainSegment s := by
    intro s hm
    rcases List.mem_append.1 hm with h | h
    · exact hb s h
    · rcases List.mem_cons.1 h with h | h
      · exact h ▸ h1
      · exact hs s h
  have hpct : ∀ segs : List String, (∀ s ∈ segs, PlainSegment s) → '%' ∉ (pathOf segs).data := by
    intro segs hsegs hm
    rcases mem_pathOf segs _ hm with h' | ⟨t, ht, hc⟩
    · revert h'; decide
    · exact (hsegs t ht).nopercent hc
  have hclean : '%' ∉ (base.joinedPath (("/" ++ s1) :: ss)).data := by
    rw [hj]
    cases bsegs with
    | nil =>
      intro hm
      have hm' : '%' ∈ (pathOf (s1 :: ss)).data := by
        rw [pathOf_data]
        exact List.mem_cons_of_mem _ hm
      exact hpct (s1 :: ss) (fun s h => hall s (by simpa using h)) hm'
    | cons b1 bs => exact hpct _ hall
  unfold URL.JoinPath
  rw [unescapeError_path_no_percent _ hclean]
  exact hj

theorem append_slashes_ne (a b c : String) : ¬ (a ++ ("//" ++ b) ++ c = "") := by
  intro h
  have := congrArg String.data h
  simp at this

theorem append_slashes_ne' (a b b' c : String) : ¬ (a ++ ("//" ++ b ++ b') ++ c = "") := by
  intro h
  have := congrArg String.data h
  simp at this

theorem String_of_host (u : URL) (hhost : u.Host ≠ "") (hhier : u.Opaque = "") :
    u.String = u.origin ++
      (if u.Path ≠ "" ∧ u.Path.data.head? ≠ some '/' then "/" else "") ++ u.Path ++ u.suffix := by
  unfold URL.String URL.origin URL.suffix URL.EscapedPath
  simp only [hhost, hhier, ne_eq, not_true_eq_false, not_false_eq_true, or_true, true_or,
    if_true, if_false, and_true, false_and, and_false]
  cases hu : u.User with
  | none =>
    simp only [append_slashes_ne, append_slashes_ne', false_and, if_false]
    apply String.ext
    simp
  | some userinfo =>
    simp only [append_slashes_ne, append_slashes_ne', false_and, if_false]
    apply String.ext
    simp

theorem joinSlash_head (s1 : String) (ss : List String) (h1 : PlainSegment s1) :
    (joinSlash ((s1 :: ss).map String.data)).head? ≠ some '/' ∧
      joinSlash ((s1 :: ss).map String.data) ≠ [] := by
  cases hs1 : s1.data with
  | nil => exact absurd hs1 h1.data_ne_nil
  | cons c cs =>
    have hc : c ≠ '/' := by
      intro hc
      apply h1.noslash
      rw [hs1, hc]
      exact List.mem_cons_self _ _
    cases ss with
    | nil => simpa [joinSlash, hs1] using hc
    | cons t ts => simpa [joinSlash, hs1] using hc

/-- The URL string after `JoinPath`: for a base URL with a host whose path is
made of plain segments, and elements that are plain segments, it is what the
base URL writes before its path, the base path followed by the elements, each
after a slash, and what the base URL writes after its path. -/
theorem JoinPath_String (base : URL) (bsegs : List String) (hhost : base.Host ≠ "")
    (hhier : base.Opaque = "")
    (hpath : base.Path = pathOf bsegs) (hb : ∀ s ∈ bsegs, PlainSegment s) (s1 : String)
    (ss : List String) (h1 : PlainSegment s1) (hs : ∀ s ∈ ss, PlainSegment s) :
    (base.JoinPath (("/" ++ s1) :: ss)).String =
      base.origin ++ base.Path ++ pathOf (s1 :: ss) ++ base.suffix := by
  have hP := JoinPath_path base bsegs hpath hb s1 ss h1 hs
  obtain ⟨hH, hO, hor, hsu⟩ := JoinPath_fields base (("/" ++ s1) :: ss)
  rw [String_of_host _ (by rw [hH]; exact hhost) (by rw [hO]; exact hhier), hor, hsu]
  cases bsegs with
  | nil =>
    have hp : base.Path = "" := hpath
    have hP' : (base.JoinPath (("/" ++ s1) :: ss)).Path =
        String.mk (joinSlash ((s1 :: ss).map String.data)) := by
      rw [hP]; rfl
    have hd := pathOf_data s1 ss
    obtain ⟨hhead, hnil⟩ := joinSlash_head s1 ss h1
    have hne : (String.mk (joinSlash ((s1 :: ss).map String.data))) ≠ "" := by
      intro hc
      exact hnil (congrArg String.data hc)
    have e1 : (if (String.mk (joinSlash ((s1 :: ss).map String.data))) ≠ "" ∧
        (String.mk (joinSlash ((s1 :: ss).map String.data))).data.head? ≠ some '/'
        then "/" else "") = "/" := if_pos ⟨hne, hhead⟩
    rw [hP', hp, e1]
    apply String.ext
    simp [hd]
  | cons b1 bs =>
    have hP' : (base.JoinPath (("/" ++ s1) :: ss)).Path = pathOf ((b1 :: bs) ++ s1 :: ss) := by
      rw [hP]; rfl
    have hpd' : (pathOf ((b1 :: bs) ++ s1 :: ss)).data.head? = some '/' := by
      show (pathOf (b1 :: (bs ++ s1 :: ss))).data.head? = some '/'
      rw [pathOf_data]
      rfl
    have e1 : (if pathOf ((b1 :: bs) ++ s1 :: ss) ≠ "" ∧
        (pathOf ((b1 :: bs) ++ s1 :: ss)).data.head? ≠ some '/' then "/" else "") = "" :=
      if_neg (fun h => h.2 hpd')
    rw [hP', e1, pathOf_append, ← hpath]
    apply String.ext
    simp

/-- The string of a base URL with a host whose path is made of plain segments:
what it writes before the path, the path, and what it writes after the
path. -/
theorem String_of_plain_path (base : URL) (bsegs : List String) (hhost : base.Host ≠ "")
    (hhier : base.Opaque = "") (hpath : base.Path = pathOf bsegs) :
    base.String = base.origin ++ base.Path ++ base.suffix := by
  rw [String_of_host base hhost hhier]
  have e : (if base.Path ≠ "" ∧ base.Path.data.head? ≠ some '/' then "/" else "") = "" := by
    cases bsegs with
    | nil =>
      have hp : base.Path = "" := hpath
      exact if_neg (fun h => h.1 hp)
    | cons b1 bs =>
      have hpd : base.Path.data.head? = some '/' := by
        rw [hpath, pathOf_data]
        rfl
      exact if_neg (fun h => h.2 hpd)
  rw [e]
  apply String.ext
  simp

/-! ## The requests of `SetIdentityFact` and `SetIdentitySecret` -/

theorem pathOf_three (a b c : String) : pathOf [a, b, c] = "/" ++ a ++ "/" ++ b ++ "/" ++ c := by
  apply String.ext
  simp [pathOf]

/-- C7, as the code has it: for a base URL with a host and no opaque part
whose path is made of plain segments (`/s1/.../sn`, possibly empty), and an
identity and a key that are plain segments, `SetIdentityFact` hands exactly one
request to the HTTP client: a PUT whose body is the JSON object with the one
member `value` holding the value and whose URL is the base URL with `/fact/`,
the identity, `/` and the key appended to its path: what the base URL writes
before its path (scheme, user information, host), the extended path, and what
the base URL writes after its path (query, fragment).  When the base URL has
neither query nor fragment this is the base URL followed by `/fact/`, the
identity, `/` and the key.  `SetIdentitySecret` does the same with `secret` in
place of `fact`. -/
theorem setIdentity_request {σ : Type} (p : Provider σ) (ctx : Context) (bsegs : List String)
    (identity key value : String) (w : World σ)
    (hhost : p.baseURL.Host ≠ "") (hhier : p.baseURL.Opaque = "")
    (hpath : p.baseURL.Path = pathOf bsegs)
    (hb : ∀ s ∈ bsegs, PlainSegment s) (hid : PlainSegment identity) (hkey : PlainSegment key) :
    (p.SetIdentityFact ctx identity key value w).2.requests =
      w.requests ++
        [{ Method := "PUT",
           URL := p.baseURL.origin ++ p.baseURL.Path ++ "/fact/" ++ identity ++ "/" ++ key ++
             p.baseURL.suffix,
           Body := some (Json.obj [("value", Json.str value)]) }] ∧
    (p.SetIdentitySecret ctx identity key value w).2.requests =
      w.requests ++
        [{ Method := "PUT",
           URL := p.baseURL.origin ++ p.baseURL.Path ++ "/secret/" ++ identity ++ "/" ++ key ++
             p.baseURL.suffix,
           Body := some (Json.obj [("value", Json.str value)]) }] ∧
    p.baseURL.String = p.baseURL.origin ++ p.baseURL.Path ++ p.baseURL.suffix ∧
    (p.baseURL.suffix = "" →
      (p.SetIdentityFact ctx identity key value w).2.requests =
        w.requests ++
        [{ Method := "PUT",
           URL := p.baseURL.String ++ "/fact/" ++ identity ++ "/" ++ key,
           Body := some (Json.obj [("value", Json.str value)]) }]) ∧
    (p.baseURL.suffix = "" →
      (p.SetIdentitySecret ctx identity key value w).2.requests =
        w.requests ++
        [{ Method := "PUT",
           URL := p.baseURL.String ++ "/secret/" ++ identity ++ "/" ++ key,
           Body := some (Json.obj [("value", Json.str value)]) }]) := by
  have hs : ∀ s ∈ [identity, key], PlainSegment s := by
    intro s hm
    simp only [List.mem_cons, List.mem_singleton, List.not_mem_nil, or_false] at hm
    rcases hm with h | h <;> subst h <;> assumption
  have hfact := JoinPath_String p.baseURL bsegs hhost hhier hpath hb "fact" [identity, key]
    (by decide) hs
  have hsecret := JoinPath_String p.baseURL bsegs hhost hhier hpath hb "secret"
    [identity, key] (by decide) hs
  have e1 : ("/" ++ "fact" : String) = "/fact" := by decide
  have e2 : ("/" ++ "secret" : String) = "/secret" := by decide
  rw [e1] at hfact
  rw [e2] at hsecret
  have hstr := String_of_plain_path p.baseURL bsegs hhost hhier hpath
  have hF : (p.SetIdentityFact ctx identity key value w).2.requests =
      w.requests ++
        [{ Method := "PUT",
           URL := p.baseURL.origin ++ p.baseURL.Path ++ "/fact/" ++ identity ++ "/" ++ key ++
             p.baseURL.suffix,
           Body := some (Json.obj [("value", Json.str value)]) }] := by
    rw [SetIdentityFact_eq]
    simp only [putRequest, hfact, pathOf_three]
    congr 3
    apply String.ext
    simp
  have hS : (p.SetIdentitySecret ctx identity key value w).2.requests =
      w.requests ++
        [{ Method := "PUT",
           URL := p.baseURL.origin ++ p.baseURL.Path ++ "/secret/" ++ identity ++ "/" ++ key ++
             p.baseURL.suffix,
           Body := some (Json.obj [("value", Json.str value)]) }] := by
    rw [SetIdentitySecret_eq]
    simp only [putRequest, hsecret, pathOf_three]
    congr 3
    apply String.ext
    simp
  refine ⟨hF, hS, hstr, ?_, ?_⟩
  · intro hsuf
    rw [hF, hstr, hsuf]
    congr 3
    apply String.ext
    simp
  · intro hsuf
    rw [hS, hstr, hsuf]
    congr 3
    apply String.ext
    simp

theorem setIdentity_request_witness :
    sampleURL.Host ≠ "" ∧ sampleURL.Opaque = "" ∧ sampleURL.Path = pathOf [] ∧
    PlainSegment "alice" ∧ PlainSegment "plan" ∧
    (factsProvider.SetIdentityFact ⟨0⟩ "alice" "plan" "pro" (freshWorld ())).2.requests =
      (freshWorld ()).requests ++
        [{ Method := "PUT",
           URL := factsProvider.baseURL.origin ++ factsProvider.baseURL.Path ++ "/fact/" ++ "alice" ++ "/" ++ "plan" ++
             factsProvider.baseURL.suffix,
           Body := some (Json.obj [("value", Json.str "pro")]) }] ∧
    (factsProvider.SetIdentitySecret ⟨0⟩ "alice" "plan" "pro" (freshWorld ())).2.requests =
      (freshWorld ()).requests ++
        [{ Method := "PUT",
           URL := factsProvider.baseURL.origin ++ factsProvider.baseURL.Path ++ "/secret/" ++ "alice" ++ "/" ++ "plan" ++
             factsProvider.baseURL.suffix,
           Body := some (Json.obj [("value", Json.str "pro")]) }] ∧
    factsProvider.baseURL.String = factsProvider.baseURL.origin ++ factsProvider.baseURL.Path ++ factsProvider.baseURL.suffix ∧
    (factsProvider.baseURL.suffix = "" →
      (factsProvider.SetIdentityFact ⟨0⟩ "alice" "plan" "pro" (freshWorld ())).2.requests =
        (freshWorld ()).requests ++
        [{ Method := "PUT",
           URL := factsProvider.baseURL.String ++ "/fact/" ++ "alice" ++ "/" ++ "plan",
           Body := some (Json.obj [("value", Json.str "pro")]) }]) ∧
    (factsProvider.baseURL.suffix = "" →
      (factsProvider.SetIdentitySecret ⟨0⟩ "alice" "plan" "pro" (freshWorld ())).2.requests =
        (freshWorld ()).requests ++
        [{ Method := "PUT",
           URL := factsProvider.baseURL.String ++ "/secret/" ++ "alice" ++ "/" ++ "plan",
           Body := some (Json.obj [("value", Json.str "pro")]) }]) :=
  ⟨by decide, rfl, rfl, by decide, by decide,
    setIdentity_request factsProvider ⟨0⟩ [] "alice" "plan" "pro" (freshWorld ())
      (by decide) rfl rfl (fun _ h => absurd h (List.not_mem_nil _)) (by decide) (by decide)⟩

/-- The query of a base URL stays behind the extended path: with the base URL
`http://store?x=1` the request of `SetIdentityFact` goes to
`http://store/fact/alice/plan?x=1`. -/
theorem setIdentity_keeps_query :
    url_Parse "http://store?x=1" = Except.ok queryURL ∧
    (queryProvider.SetIdentityFact ⟨0⟩ "alice" "plan" "pro" (freshWorld ())).2.requests.map
      Request.URL = ["http://store/fact/alice/plan?x=1"] :=
  ⟨rfl, rfl⟩

/-- C7 as stated fails: for the identity `..` the path is cleaned, and the one
request goes to `http://store/plan`, not to `http://store/fact/../plan`. -/
theorem setIdentity_dotdot_counterexample :
    (factsProvider.SetIdentityFact ⟨0⟩ ".." "plan" "pro" (freshWorld ())).2.requests.map
      Request.URL = ["http://store/plan"] ∧
    factsProvider.baseURL.String ++ "/fact/" ++ ".." ++ "/" ++ "plan" = "http://store/fact/../plan" ∧
    ("http://store/plan" : String) ≠ "http://store/fact/../plan" := by
  refine ⟨rfl, rfl, by decide⟩

/-! ## Round trip through the stub store -/

theorem stripPrefix_append (a b : List Char) : stripPrefix a (a ++ b) = some b := by
  induction a with
  | nil => rfl
  | cons c cs ih => simp [stripPrefix, ih]

theorem noslash_fact : '/' ∉ "fact".data := by decide

theorem cutChar_append (sep : Char) (a t : List Char) (h : sep ∉ a) :
    (cutChar sep (a ++ t)).1 = a ++ (cutChar sep t).1 := by
  induction a with
  | nil => rfl
  | cons c cs ih =>
    simp only [List.mem_cons, not_or] at h
    have hc : ¬ c = sep := fun e => h.1 e.symm
    simp [cutChar, hc, ih h.2]

/-- The path of a request is found before the query and the fragment. -/
theorem requestPath_append (a sfx : List Char) (hq : '?' ∉ a) (hh : '#' ∉ a)
    (hs : sfx = [] ∨ sfx.head? = some '?' ∨ sfx.head? = some '#') :
    requestPath (a ++ sfx) = a := by
  unfold requestPath
  rw [cutChar_append '#' a sfx hh]
  rcases hs with h | h | h
  · subst h
    simp [cutChar, cutChar_not_mem '?' a hq]
  · cases sfx with
    | nil => cases h
    | cons c r =>
      simp only [List.head?_cons, Option.some.injEq] at h
      subst h
      have e : (cutChar '#' ('?' :: r)).1 = '?' :: (cutChar '#' r).1 := by
        simp [cutChar]
      rw [e, cutChar_append '?' a _ hq]
      simp [cutChar]
  · cases sfx with
    | nil => cases h
    | cons c r =>
      simp only [List.head?_cons, Option.some.injEq] at h
      subst h
      simp [cutChar, cutChar_not_mem '?' a hq]

theorem suffix_head (u : URL) :
    u.suffix.data = [] ∨ u.suffix.data.head? = some '?' ∨ u.suffix.data.head? = some '#' := by
  unfold URL.suffix
  by_cases hq : u.ForceQuery = true ∨ u.RawQuery ≠ ""
  · right; left
    simp [hq]
  · by_cases hf : u.Fragment ≠ ""
    · right; right
      simp [hq, hf]
    · left
      simp [hq, hf]

theorem pathOf_no_query_hash (segs : List String) (h : ∀ s ∈ segs, PlainSegment s) :
    '?' ∉ (pathOf segs).data ∧ '#' ∉ (pathOf segs).data := by
  constructor
  · intro hm
    rcases mem_pathOf segs _ hm with h' | ⟨t, ht, hc⟩
    · revert h'; decide
    · exact (h t ht).noquery hc
  · intro hm
    rcases mem_pathOf segs _ hm with h' | ⟨t, ht, hc⟩
    · revert h'; decide
    · exact (h t ht).nohash hc

theorem stubStore_put (root identity key v sfx : String) (s : StubState)
    (hid : PlainSegment identity) (hkey : PlainSegment key)
    (hsfx : sfx.data = [] ∨ sfx.data.head? = some '?' ∨ sfx.data.head? = some '#') :
    (stubStore root).roundTrip
        { Method := MethodPut, URL := root ++ pathOf ["fact", identity, key] ++ sfx,
          Body := some (Json.obj [("value", Json.str v)]) } s =
      (Except.ok okResponse,
        s.set identity (((s.get identity).getD []).set key v)) := by
  have hplain : ∀ t ∈ ["fact", identity, key], PlainSegment t := by
    intro t ht
    simp only [List.mem_cons, List.mem_singleton, List.not_mem_nil, or_false] at ht
    rcases ht with h | h | h
    · subst h; decide
    · subst h; exact hid
    · subst h; exact hkey
  obtain ⟨hq, hh⟩ := pathOf_no_query_hash _ hplain
  have hurl : stripPrefix root.data (root ++ pathOf ["fact", identity, key] ++ sfx).data =
      some ((pathOf ["fact", identity, key]).data ++ sfx.data) := by
    rw [String.data_append, String.data_append, List.append_assoc, stripPrefix_append]
  have hpath : requestPath ((pathOf ["fact", identity, key]).data ++ sfx.data) =
      joinSlash [[], "fact".data, identity.data, key.data] := by
    rw [requestPath_append _ _ hq hh hsfx, pathOf_data]
    rfl
  have hsplit : splitSlash (joinSlash [[], "fact".data, identity.data, key.data]) =
      [[], "fact".data, identity.data, key.data] := by
    apply splitSlash_joinSlash _ (List.cons_ne_nil _ _)
    intro x hx
    simp only [List.mem_cons, List.mem_singleton, List.not_mem_nil, or_false] at hx
    rcases hx with h | h | h | h
    · subst h; simp
    · subst h; exact noslash_fact
    · subst h; exact hid.noslash
    · subst h; exact hkey.noslash
  simp only [stubStore, hurl, hpath, hsplit]
  simp [hid.data_ne_nil, hkey.data_ne_nil, lastMember]

theorem stubStore_get (root identity sfx : String) (s : StubState)
    (hid : PlainSegment identity)
    (hsfx : sfx.data = [] ∨ sfx.data.head? = some '?' ∨ sfx.data.head? = some '#') :
    (stubStore root).roundTrip
        { Method := MethodGet, URL := root ++ pathOf ["fact", identity] ++ sfx, Body := none } s =
      (Except.ok
        { Status := "200 OK", StatusCode := 200,
          Body := Body.json (Json.obj
            (((s.get identity).getD []).map fun kv => (kv.1, Json.str kv.2))) },
        s) := by
  have hplain : ∀ t ∈ ["fact", identity], PlainSegment t := by
    intro t ht
    simp only [List.mem_cons, List.mem_singleton, List.not_mem_nil, or_false] at ht
    rcases ht with h | h
    · subst h; decide
    · subst h; exact hid
  obtain ⟨hq, hh⟩ := pathOf_no_query_hash _ hplain
  have hurl : stripPrefix root.data (root ++ pathOf ["fact", identity] ++ sfx).data =
      some ((pathOf ["fact", identity]).data ++ sfx.data) := by
    rw [String.data_append, String.data_append, List.append_assoc, stripPrefix_append]
  have hpath : requestPath ((pathOf ["fact", identity]).data ++ sfx.data) =
      joinSlash [[], "fact".data, identity.data] := by
    rw [requestPath_append _ _ hq hh hsfx, pathOf_data]
    rfl
  have hsplit : splitSlash (joinSlash [[], "fact".data, identity.data]) =
      [[], "fact".data, identity.data] := by
    apply splitSlash_joinSlash _ (List.cons_ne_nil _ _)
    intro x hx
    simp only [List.mem_cons, List.mem_singleton, List.not_mem_nil, or_false] at hx
    rcases hx with h | h | h
    · subst h; simp
    · subst h; exact noslash_fact
    · subst h; exact hid.noslash
  simp only [stubStore, hurl, hpath, hsplit]
  simp [hid.data_ne_nil]

theorem lastMember_map_of_WF (m : GoMap String) (h : m.WF) (k : String) :
    lastMember (m.map fun kv => (kv.1, Json.str kv.2)) k = (m.get k).map Json.str := by
  induction m with
  | nil => rfl
  | cons e rest ih =>
    obtain ⟨k0, v0⟩ := e
    have hwf : (rest.map Prod.fst).Nodup ∧ k0 ∉ rest.map Prod.fst := by
      have := h
      unfold GoMap.WF at this
      simp only [List.map_cons, List.nodup_cons] at this
      exact ⟨this.2, this.1⟩
    simp only [List.map_cons, lastMember, ih hwf.1, GoMap.get]
    by_cases hk : k0 = k
    · subst hk
      simp [GoMap.get_eq_none_of_not_mem rest k0 hwf.2]
    · simp only [hk, if_false]
      cases GoMap.get rest k <;> rfl

/-- C8, as the code has it: against the stub store served at a base URL with a
host and no opaque part whose path is made of plain segments, in a state whose
fact maps repeat no key, for an identity and a key that are plain segments and
any value, `SetIdentityFact` returns no error and `GetIdentityFacts` then
returns a mapping in which the key maps to the value. -/
theorem fact_round_trip (base : URL) (featureProvider : FeatureProvider) (ctx : Context)
    (bsegs : List String) (identity key value : String) (w : World StubState)
    (hhost : base.Host ≠ "") (hhier : base.Opaque = "") (hpath : base.Path = pathOf bsegs)
    (hb : ∀ s ∈ bsegs, PlainSegment s)
    (hid : PlainSegment identity) (hkey : PlainSegment key) (hwf : w.store.WF) :
    ((stubProvider base featureProvider).SetIdentityFact ctx identity key value w).1 = none ∧
    ∃ m, ((stubProvider base featureProvider).GetIdentityFacts ctx identity
        ((stubProvider base featureProvider).SetIdentityFact ctx identity key value w).2).1 =
          Except.ok m ∧
      m.get key = some value := by
  have hs2 : ∀ s ∈ [identity, key], PlainSegment s := by
    intro s hm
    simp only [List.mem_cons, List.mem_singleton, List.not_mem_nil, or_false] at hm
    rcases hm with h | h <;> subst h <;> assumption
  have hs1 : ∀ s ∈ [identity], PlainSegment s := by
    intro s hm
    simp only [List.mem_singleton] at hm
    subst hm
    exact hid
  have e1 : ("/" ++ "fact" : String) = "/fact" := by decide
  have hput := JoinPath_String base bsegs hhost hhier hpath hb "fact" [identity, key]
    (by decide) hs2
  have hget := JoinPath_String base bsegs hhost hhier hpath hb "fact" [identity]
    (by decide) hs1
  rw [e1] at hput hget
  have hputReq : putRequest (stubProvider base featureProvider) "/fact" identity key value =
      { Method := MethodPut,
        URL := base.origin ++ base.Path ++ pathOf ["fact", identity, key] ++ base.suffix,
        Body := some (Json.obj [("value", Json.str value)]) } := by
    simp only [putRequest, stubProvider, hput]
  have hgetReq : factsRequest (stubProvider base featureProvider) identity =
      { Method := MethodGet,
        URL := base.origin ++ base.Path ++ pathOf ["fact", identity] ++ base.suffix,
        Body := none } := by
    simp only [factsRequest, stubProvider, hget]
  have hsame : ∀ w', (stubProvider base featureProvider).GetIdentityFacts ctx identity w' =
      (stubProvider base featureProvider).getIdentityContext identity w' := fun _ => rfl
  have hclient : (stubProvider base featureProvider).httpClient =
      stubStore (base.origin ++ base.Path) := rfl
  rw [hsame, SetIdentityFact_eq, getIdentityContext_eq, hputReq, hgetReq, hclient]
  simp only [stubStore_put (base.origin ++ base.Path) identity key value base.suffix w.store
      hid hkey (suffix_head base),
    stubStore_get (base.origin ++ base.Path) identity base.suffix _ hid (suffix_head base),
    okResponse, if_true, GoMap.get_set, Option.getD_some, true_and]
  have hm : (((w.store.get identity).getD []).set key value).WF := by
    apply GoMap.WF_set
    cases hg : GoMap.get w.store identity with
    | none => exact List.nodup_nil
    | some m0 => exact hwf identity m0 hg
  obtain ⟨m, hdec, hentries⟩ := json_Decode_object
    ((((w.store.get identity).getD []).set key value).map fun kv => (kv.1, Json.str kv.2))
    (by
      intro kv hkv
      obtain ⟨e, -, rfl⟩ := List.mem_map.1 hkv
      exact Or.inr ⟨e.2, rfl⟩)
  refine ⟨m, hdec, ?_⟩
  rw [hentries, lastMember_map_of_WF _ hm, GoMap.get_set]
  simp [memberString]

theorem fact_round_trip_witness :
    sampleURL.Host ≠ "" ∧ sampleURL.Opaque = "" ∧ sampleURL.Path = pathOf [] ∧
    PlainSegment "alice" ∧ PlainSegment "plan" ∧
    StubState.WF (freshWorld ([] : StubState)).store ∧
    ((stubProvider sampleURL staticProvider).SetIdentityFact ⟨0⟩ "alice" "plan" "pro"
      (freshWorld [])).1 = none ∧
    ∃ m, ((stubProvider sampleURL staticProvider).GetIdentityFacts ⟨0⟩ "alice"
        ((stubProvider sampleURL staticProvider).SetIdentityFact ⟨0⟩ "alice" "plan" "pro"
          (freshWorld [])).2).1 = Except.ok m ∧
      m.get "plan" = some "pro" :=
  ⟨by decide, rfl, rfl, by decide, by decide, (fun _ _ h => Option.noConfusion h),
    fact_round_trip sampleURL staticProvider ⟨0⟩ [] "alice" "plan" "pro" (freshWorld [])
      (by decide) rfl rfl (fun _ h => absurd h (List.not_mem_nil _)) (by decide) (by decide)
      (fun _ _ h => Option.noConfusion h)⟩

/-- C8 as stated fails: for the key `./plan` the path is cleaned, the stub
store records the value under `plan`, `SetIdentityFact` returns no error, and
the mapping `GetIdentityFacts` then returns has no entry for `./plan`. -/
theorem round_trip_dotted_key_counterexample :
    ((stubProvider sampleURL staticProvider).SetIdentityFact ⟨0⟩ "alice" "./plan" "pro"
      (freshWorld [])).1 = none ∧
    ((stubProvider sampleURL staticProvider).GetIdentityFacts ⟨0⟩ "alice"
        ((stubProvider sampleURL staticProvider).SetIdentityFact ⟨0⟩ "alice" "./plan" "pro"
          (freshWorld [])).2).1 = Except.ok [("plan", "pro")] ∧
    GoMap.get [("plan", "pro")] "./plan" = none := by
  refine ⟨rfl, rfl, rfl⟩

end FlagopsDataStore
